import Mathlib

/-!
# Credential hasher: salted HMAC-SHA256 password records

A shallow embedding of `data/projects/a3/hashpassword.go` together with the
platform primitives it calls (`encoding/base64`, `strings.Split`,
`crypto/sha256`, `crypto/hmac`, `crypto/subtle`, `crypto/rand`), of its a2
variant `data/projects/a2/hashpassword.go`, and of the utilities
`data/projects/a3/randomanimals.go`, `data/projects/a3/randompassword.go` and
`data/projects/x1/factorial.go`.

Go strings and byte slices are sequences of bytes, here `List Byte`.
Go's multi-value returns `(v, err)` are pairs `v × Option Error`, so that
the value returned next to an error stays visible. The random source is passed
in and handed back, and a loop whose end depends on machine integers runs on
fuel.
-/

namespace OpenTask

/-! ## Bytes and strings -/

/-- One byte, the element type of Go's `string` and `[]byte`. -/
abbrev Byte := Fin 256

/-- The conversion `byte(n)` of an unsigned value: the low eight bits. -/
def byte (n : Nat) : Byte := ⟨n % 256, Nat.mod_lt _ (by decide)⟩

/-- The bytes of an ASCII string literal. -/
def ascii (s : String) : List Byte := s.toList.map (fun c => byte c.toNat)

/-! ## `encoding/base64` (non-strict encodings) -/

namespace Base64

/-- An `Encoding`: the 64-symbol alphabet and the padding character
(`none` is Go's `NoPadding`). Both encodings the program uses are
non-strict, so the strict flag is left out. -/
structure Encoding where
  alphabet : List Byte
  padChar : Option Byte

/-- The table lookup `enc.encode[v & 0x3F]`. -/
def Encoding.sym (enc : Encoding) (v : Nat) : Byte :=
  enc.alphabet.getD (v % 64) 0

/-- The table lookup `enc.decodeMap[c]`: the index of `c` in the alphabet,
`0xff` for a byte outside it. -/
def Encoding.decodeMap (enc : Encoding) (c : Byte) : Nat :=
  if enc.alphabet.indexOf c < 64 then enc.alphabet.indexOf c else 0xff

/-- The padding `Encode` appends after a final group of `remain` bytes. -/
def Encoding.padding (enc : Encoding) (n : Nat) : List Byte :=
  match enc.padChar with
  | some p => List.replicate n p
  | none => []

/-- The function `EncodeToString`: three bytes become four symbols, a last group of
one or two bytes becomes two or three symbols followed by the padding. -/
def Encoding.EncodeToString (enc : Encoding) : List Byte → List Byte
  | a :: b :: c :: rest =>
      let val := a.val * 65536 + b.val * 256 + c.val
      enc.sym (val / 262144) :: enc.sym (val / 4096) :: enc.sym (val / 64) :: enc.sym val
        :: EncodeToString enc rest
  | [a, b] =>
      let val := a.val * 65536 + b.val * 256
      [enc.sym (val / 262144), enc.sym (val / 4096), enc.sym (val / 64)] ++ enc.padding 1
  | [a] =>
      let val := a.val * 65536
      [enc.sym (val / 262144), enc.sym (val / 4096)] ++ enc.padding 2
  | [] => []

/-- The loop `for si < len(src) && (src[si] == '\n' || src[si] == '\r') { si++ }`. -/
def skipNewlines : List Byte → Nat → List Byte × Nat
  | c :: cs, si => if c = 10 ∨ c = 13 then skipNewlines cs (si + 1) else (c :: cs, si)
  | [], si => ([], si)

/-- The end of `decodeQuantum`: the 6-bit values collected in `dbuf` are packed
into 24 bits and the first `dlen - 1` bytes are written. Bits beyond them are
dropped without a check (non-strict decoding). -/
def quantumBytes (dbuf : List Nat) (dlen : Nat) : List Byte :=
  let val := dbuf.getD 0 0 * 262144 + dbuf.getD 1 0 * 4096 + dbuf.getD 2 0 * 64 + dbuf.getD 3 0
  [byte (val / 65536), byte (val / 256), byte val].take (dlen - 1)

/-- The loop of `Decode` over `decodeQuantum`, reading the rest of the input.
`total` is `len(src)`, `si` the index of the next byte, `dbuf` the 6-bit values
of the current quantum, `dst` the output so far. An error is the offset of a
`CorruptInputError`. -/
def Encoding.decodeFrom (enc : Encoding) (total : Nat) :
    List Byte → Nat → List Nat → List Byte → Except Nat (List Byte)
  | [], si, dbuf, dst =>
      if dbuf.length = 0 then .ok dst
      else if dbuf.length = 1 ∨ enc.padChar ≠ none then .error (si - dbuf.length)
      else .ok (dst ++ quantumBytes dbuf dbuf.length)
  | c :: rest, si, dbuf, dst =>
      if enc.decodeMap c ≠ 0xff then
        if dbuf.length = 3 then
          decodeFrom enc total rest (si + 1) [] (dst ++ quantumBytes (dbuf ++ [enc.decodeMap c]) 4)
        else
          decodeFrom enc total rest (si + 1) (dbuf ++ [enc.decodeMap c]) dst
      else if c = 10 ∨ c = 13 then
        decodeFrom enc total rest (si + 1) dbuf dst
      else if some c ≠ enc.padChar then .error si
      else if dbuf.length < 2 then .error si
      else if dbuf.length = 2 then
        match skipNewlines rest (si + 1) with
        | ([], _) => .error total
        | (d :: rest2, si1) =>
            if some d ≠ enc.padChar then .error (si1 - 1)
            else if (skipNewlines rest2 (si1 + 1)).1 ≠ [] then
              .error (skipNewlines rest2 (si1 + 1)).2
            else .ok (dst ++ quantumBytes dbuf 2)
      else
        if (skipNewlines rest (si + 1)).1 ≠ [] then .error (skipNewlines rest (si + 1)).2
        else .ok (dst ++ quantumBytes dbuf 3)

/-- The function `DecodeString`: the decoded bytes, or the offset of the corrupt input. -/
def Encoding.DecodeString (enc : Encoding) (s : List Byte) : Except Nat (List Byte) :=
  enc.decodeFrom s.length s 0 [] []

/-- What `NewEncoding` asks of an alphabet and `WithPadding` of a padding character:
the 64 symbols are distinct, so that every index is read back from its symbol, and
the padding character is no symbol and no newline. -/
structure Encoding.Valid (enc : Encoding) : Prop where
  decodeMap_sym : ∀ i : Fin 64, enc.decodeMap (enc.sym i.val) = i.val
  pad_outside : ∀ p, enc.padChar = some p → enc.decodeMap p = 0xff ∧ p ≠ 10 ∧ p ≠ 13

/-- The alphabet `A-Z a-z 0-9 - _` of RFC 4648 section 5. -/
def encodeURL : List Byte :=
  ascii "ABCDEFGHIJKLMNOPQRSTUVWXYZabcdefghijklmnopqrstuvwxyz0123456789-_"

/-- The padded URL-safe encoding `base64.URLEncoding`. -/
def URLEncoding : Encoding := ⟨encodeURL, some 61⟩

/-- The alphabet `A-Z a-z 0-9 + /` of RFC 4648 section 4. -/
def encodeStd : List Byte :=
  ascii "ABCDEFGHIJKLMNOPQRSTUVWXYZabcdefghijklmnopqrstuvwxyz0123456789+/"

/-- The unpadded standard encoding `base64.RawStdEncoding`. -/
def RawStdEncoding : Encoding := ⟨encodeStd, none⟩

end Base64

/-! ## `crypto/sha256` (FIPS 180-4) -/

namespace SHA256

/-- The block size of SHA-256 in bytes, `sha256.BlockSize`. -/
def BlockSize : Nat := 64

/-- The digest size of SHA-256 in bytes, `sha256.Size`. -/
def Size : Nat := 32

/-- The round constants. -/
def K : List Nat :=
  [
   0x428a2f98, 0x71374491, 0xb5c0fbcf, 0xe9b5dba5,
   0x3956c25b, 0x59f111f1, 0x923f82a4, 0xab1c5ed5,
   0xd807aa98, 0x12835b01, 0x243185be, 0x550c7dc3,
   0x72be5d74, 0x80deb1fe, 0x9bdc06a7, 0xc19bf174,
   0xe49b69c1, 0xefbe4786, 0x0fc19dc6, 0x240ca1cc,
   0x2de92c6f, 0x4a7484aa, 0x5cb0a9dc, 0x76f988da,
   0x983e5152, 0xa831c66d, 0xb00327c8, 0xbf597fc7,
   0xc6e00bf3, 0xd5a79147, 0x06ca6351, 0x14292967,
   0x27b70a85, 0x2e1b2138, 0x4d2c6dfc, 0x53380d13,
   0x650a7354, 0x766a0abb, 0x81c2c92e, 0x92722c85,
   0xa2bfe8a1, 0xa81a664b, 0xc24b8b70, 0xc76c51a3,
   0xd192e819, 0xd6990624, 0xf40e3585, 0x106aa070,
   0x19a4c116, 0x1e376c08, 0x2748774c, 0x34b0bcb5,
   0x391c0cb3, 0x4ed8aa4a, 0x5b9cca4f, 0x682e6ff3,
   0x748f82ee, 0x78a5636f, 0x84c87814, 0x8cc70208,
   0x90befffa, 0xa4506ceb, 0xbef9a3f7, 0xc67178f2]

/-- The eight 32-bit words of the chaining value. -/
structure Digest where
  h0 : Nat
  h1 : Nat
  h2 : Nat
  h3 : Nat
  h4 : Nat
  h5 : Nat
  h6 : Nat
  h7 : Nat

/-- The initial chaining value. -/
def init : Digest :=
  ⟨0x6a09e667, 0xbb67ae85, 0x3c6ef372, 0xa54ff53a, 0x510e527f, 0x9b05688c, 0x1f83d9ab, 0x5be0cd19⟩

/-- Addition of 32-bit words. -/
def add32 (x y : Nat) : Nat := (x + y) % 4294967296

/-- Rotation of a 32-bit word to the right by `n` bits. -/
def rotr (x n : Nat) : Nat := (x >>> n ||| x <<< (32 - n)) % 4294967296

/-- Complement of a 32-bit word. -/
def not32 (x : Nat) : Nat := 4294967295 - x % 4294967296

/-- The big-endian word of four bytes. -/
def beWord (bs : List Byte) : Nat := bs.foldl (fun acc b => acc * 256 + b.val) 0

/-- The sixteen words of a 64-byte block. -/
def blockWords (block : List Byte) : List Nat :=
  (List.range 16).map (fun i => beWord ((block.drop (4 * i)).take 4))

/-- The message schedule extended by `n` further words. -/
def extend : Nat → List Nat → List Nat
  | 0, w => w
  | n + 1, w =>
      let t := w.length
      let v1 := w.getD (t - 2) 0
      let v0 := w.getD (t - 15) 0
      let s1 := rotr v1 17 ^^^ rotr v1 19 ^^^ (v1 >>> 10)
      let s0 := rotr v0 7 ^^^ rotr v0 18 ^^^ (v0 >>> 3)
      extend n (w ++ [add32 (add32 (add32 s1 (w.getD (t - 7) 0)) s0) (w.getD (t - 16) 0)])

/-- One round of the compression function with round constant `k` and schedule word `w`. -/
def round (s : Digest) (k w : Nat) : Digest :=
  let a := s.h0
  let e := s.h4
  let t1 := add32 (add32 (add32 (add32 s.h7 (rotr e 6 ^^^ rotr e 11 ^^^ rotr e 25))
    ((e &&& s.h5) ^^^ (not32 e &&& s.h6))) k) w
  let t2 := add32 (rotr a 2 ^^^ rotr a 13 ^^^ rotr a 22)
    ((a &&& s.h1) ^^^ (a &&& s.h2) ^^^ (s.h1 &&& s.h2))
  ⟨add32 t1 t2, a, s.h1, s.h2, add32 s.h3 t1, e, s.h5, s.h6⟩

/-- The compression of one block into the chaining value. -/
def compress (s : Digest) (block : List Byte) : Digest :=
  let r := (List.zip K (extend 48 (blockWords block))).foldl (fun st kw => round st kw.1 kw.2) s
  ⟨add32 s.h0 r.h0, add32 s.h1 r.h1, add32 s.h2 r.h2, add32 s.h3 r.h3,
   add32 s.h4 r.h4, add32 s.h5 r.h5, add32 s.h6 r.h6, add32 s.h7 r.h7⟩

/-- The message followed by the bit `1`, zeros up to 56 modulo 64 and the
64-bit big-endian bit length. -/
def pad (msg : List Byte) : List Byte :=
  let bits := msg.length * 8
  msg ++ [128] ++ List.replicate ((119 - msg.length % 64) % 64) 0 ++
    (List.range 8).map (fun i => byte (bits / 256 ^ (7 - i)))

/-- The first `n` blocks of 64 bytes of `data`. -/
def blocks : Nat → List Byte → List (List Byte)
  | 0, _ => []
  | n + 1, data => data.take 64 :: blocks n (data.drop 64)

/-- The four big-endian bytes of a 32-bit word. -/
def wordBytes (w : Nat) : List Byte :=
  [byte (w / 16777216), byte (w / 65536), byte (w / 256), byte w]

/-- The 32 bytes of a chaining value. -/
def Digest.bytes (s : Digest) : List Byte :=
  wordBytes s.h0 ++ wordBytes s.h1 ++ wordBytes s.h2 ++ wordBytes s.h3 ++
  wordBytes s.h4 ++ wordBytes s.h5 ++ wordBytes s.h6 ++ wordBytes s.h7

/-- The SHA-256 digest of `msg`, what `Write(msg)` followed by `Sum(nil)` returns. -/
def Sum256 (msg : List Byte) : List Byte :=
  ((blocks ((pad msg).length / 64) (pad msg)).foldl compress init).bytes

end SHA256

/-! ## `crypto/hmac` over SHA-256 -/

namespace HMAC

/-- The running state of `hmac.New(sha256.New, key)`: the two padded keys and the
bytes written to the inner hash after `ipad`. -/
structure State where
  ipad : List Byte
  opad : List Byte
  written : List Byte

/-- The key `New` copies into blocks of 64 bytes: a key longer than a block is hashed
first, then zeros fill the block. -/
def blockKey (key : List Byte) : List Byte :=
  let k := if key.length > SHA256.BlockSize then SHA256.Sum256 key else key
  k ++ List.replicate (SHA256.BlockSize - k.length) 0

/-- The constructor `hmac.New(sha256.New, key)`. -/
def New (key : List Byte) : State :=
  ⟨(blockKey key).map (fun b => byte (b.val ^^^ 0x36)),
   (blockKey key).map (fun b => byte (b.val ^^^ 0x5c)), []⟩

/-- The method `Write`: the bytes are appended to the inner hash input. -/
def State.Write (h : State) (p : List Byte) : State :=
  ⟨h.ipad, h.opad, h.written ++ p⟩

/-- The method `Sum(nil)`: the outer hash over `opad` and the inner digest. -/
def State.Sum (h : State) : List Byte :=
  SHA256.Sum256 (h.opad ++ SHA256.Sum256 (h.ipad ++ h.written))

/-- HMAC-SHA256 of RFC 2104 as a function of key and message:
`H((K xor opad) ++ H((K xor ipad) ++ message))`. -/
def mac (key message : List Byte) : List Byte :=
  SHA256.Sum256 ((blockKey key).map (fun b => byte (b.val ^^^ 0x5c)) ++
    SHA256.Sum256 ((blockKey key).map (fun b => byte (b.val ^^^ 0x36)) ++ message))

end HMAC

/-! ## `strings.Split`, `crypto/subtle`, `crypto/rand` -/

/-- The function `strings.Split(s, sep)` for a separator of one byte: the pieces of `s`
between the occurrences of `sep`, one more piece than occurrences. -/
def Split : List Byte → Byte → List (List Byte)
  | [], _ => [[]]
  | c :: cs, sep =>
      if c = sep then [] :: Split cs sep
      else
        match Split cs sep with
        | p :: ps => (c :: p) :: ps
        | [] => [[c]]

namespace Subtle

/-- The function `subtle.ConstantTimeByteEq`: `int((uint32(x^y) - 1) >> 31)`. -/
def ConstantTimeByteEq (x y : Byte) : Nat :=
  ((x.val ^^^ y.val) + 4294967295) % 4294967296 / 2147483648

/-- The function `subtle.ConstantTimeCompare`: `0` at once for different lengths, otherwise
the differences `x[i] ^ y[i]` of all positions are or-ed into one byte `v` and `v` is
compared with zero. -/
def ConstantTimeCompare (x y : List Byte) : Nat :=
  if x.length ≠ y.length then 0
  else
    ConstantTimeByteEq
      (byte ((List.zipWith (fun a b => a.val ^^^ b.val) x y).foldl (fun v d => v ||| d) 0)) 0

end Subtle

/-- The errors the package returns. The four sentinels are the package-level
`Err...` variables; the others are built where they are returned. -/
inductive Error where
  /-- The sentinel `errors.New("invalid hash format")`. -/
  | ErrInvalidHash
  /-- The sentinel `errors.New("invalid algorithm identifier")`. -/
  | ErrInvalidAlgorithm
  /-- The sentinel `errors.New("password cannot be empty")`. -/
  | ErrEmptyPassword
  /-- The sentinel `errors.New("secret key cannot be empty")`. -/
  | ErrEmptySecretKey
  /-- The error `errors.New("salt length must be at least 16 bytes")`. -/
  | saltLengthTooSmall
  /-- The error the secure random source reports. -/
  | randomSource
  /-- The error `base64.CorruptInputError(off)`. -/
  | corruptInput (off : Nat)
  /-- The error `fmt.Errorf("failed to generate salt: %w", cause)`. -/
  | failedToGenerateSalt (cause : Error)
  /-- The error `fmt.Errorf("failed to decode salt: %w", cause)`. -/
  | failedToDecodeSalt (cause : Error)
  /-- The error `fmt.Errorf("failed to decode hash: %w", cause)`. -/
  | failedToDecodeHash (cause : Error)
  deriving DecidableEq, Repr

namespace Rand

/-- The secure random source `crypto/rand.Reader` as a stream: the bytes it can still
deliver and the number of `Read` calls made on it. -/
structure Reader where
  entropy : List Byte
  reads : Nat
  deriving DecidableEq, Repr

/-- The call `rand.Read(b)` on a buffer of `n` bytes: either all `n` bytes are delivered
or the source reports an error (it delivers no short buffer). -/
def Reader.Read (rd : Reader) (n : Nat) : Except Error (List Byte) × Reader :=
  if n ≤ rd.entropy.length then
    (.ok (rd.entropy.take n), ⟨rd.entropy.drop n, rd.reads + 1⟩)
  else
    (.error .randomSource, ⟨rd.entropy, rd.reads + 1⟩)

/-- The secure random source as `rand.Int` sees it: the raw values it can still deliver
and the number of `rand.Int` calls made on it. -/
structure IntSource where
  values : List Nat
  draws : Nat
  deriving DecidableEq, Repr

/-- The call `rand.Int(rand.Reader, max)` for `max > 0`: a value in `[0, max)`, here the
next raw value of the source brought into that range, or an error when the source can
deliver nothing. Every value of `[0, max)` is delivered by some source. -/
def IntSource.Int (src : IntSource) (max : Nat) : Except Error Nat × IntSource :=
  match src.values with
  | [] => (.error .randomSource, ⟨[], src.draws + 1⟩)
  | v :: vs => (.ok (v % max), ⟨vs, src.draws + 1⟩)

end Rand

namespace HMAC

/-- The function `hmac.Equal`: `subtle.ConstantTimeCompare(mac1, mac2) == 1`. -/
def Equal (mac1 mac2 : List Byte) : Bool :=
  Subtle.ConstantTimeCompare mac1 mac2 = 1

end HMAC

/-! ## `data/projects/a3/hashpassword.go` -/

namespace A3

/-- The constant `DefaultSaltLength`. -/
def DefaultSaltLength : Int := 32

/-- The constant `AlgorithmIdentifier`. -/
def AlgorithmIdentifier : List Byte := ascii "hmac_sha256"

/-- The constant `Separator`, the one-byte string `$`. -/
def Separator : Byte := 36

/-- The function `validateInputs`: password and secret key must not be empty. -/
def validateInputs (password secretKey : List Byte) : Option Error :=
  if password = [] then some .ErrEmptyPassword
  else if secretKey = [] then some .ErrEmptySecretKey
  else none

/-- The function `computeHMAC`: HMAC-SHA256 keyed by the secret key over the password
written first and the salt written second. -/
def computeHMAC (password secretKey : List Byte) (salt : List Byte) : List Byte :=
  (((HMAC.New secretKey).Write password).Write salt).Sum

/-- The function `HashPasswordWithSaltLength`, with the random source passed in and
handed back. Go's `int` salt length is an `Int`. -/
def HashPasswordWithSaltLength (password secretKey : List Byte) (saltLength : Int)
    (rd : Rand.Reader) : (List Byte × Option Error) × Rand.Reader :=
  match validateInputs password secretKey with
  | some err => (([], some err), rd)
  | none =>
      if saltLength < 16 then (([], some .saltLengthTooSmall), rd)
      else
        match rd.Read saltLength.toNat with
        | (.error err, rd1) => (([], some (.failedToGenerateSalt err)), rd1)
        | (.ok salt, rd1) =>
            let hash := computeHMAC password secretKey salt
            let saltB64 := Base64.URLEncoding.EncodeToString salt
            let hashB64 := Base64.URLEncoding.EncodeToString hash
            ((AlgorithmIdentifier ++ [Separator] ++ saltB64 ++ [Separator] ++ hashB64, none), rd1)

/-- The function `HashPassword`: the default salt length. -/
def HashPassword (password secretKey : List Byte) (rd : Rand.Reader) :
    (List Byte × Option Error) × Rand.Reader :=
  HashPasswordWithSaltLength password secretKey DefaultSaltLength rd

/-- The function `VerifyPassword`. -/
def VerifyPassword (password hash secretKey : List Byte) : Bool × Option Error :=
  match validateInputs password secretKey with
  | some err => (false, some err)
  | none =>
      if hash = [] then (false, some .ErrInvalidHash)
      else
        let parts := Split hash Separator
        if parts.length ≠ 3 then (false, some .ErrInvalidHash)
        else
          let algorithm := parts.getD 0 []
          let saltB64 := parts.getD 1 []
          let expectedHashB64 := parts.getD 2 []
          if algorithm ≠ AlgorithmIdentifier then (false, some .ErrInvalidAlgorithm)
          else
            match Base64.URLEncoding.DecodeString saltB64 with
            | .error off => (false, some (.failedToDecodeSalt (.corruptInput off)))
            | .ok salt =>
                match Base64.URLEncoding.DecodeString expectedHashB64 with
                | .error off => (false, some (.failedToDecodeHash (.corruptInput off)))
                | .ok expectedHash =>
                    let computedHash := computeHMAC password secretKey salt
                    if Subtle.ConstantTimeCompare computedHash expectedHash = 1 then (true, none)
                    else (false, none)

/-- The values stored in the `map[string]interface{}` of `GetAlgorithmInfo`:
strings, booleans and integers. -/
inductive InfoValue where
  | str (s : List Byte)
  | bool (b : Bool)
  | int (n : Int)
  deriving DecidableEq, Repr

/-- The function `GetAlgorithmInfo`: the map literal as the list of its key-value pairs. -/
def GetAlgorithmInfo : List (List Byte × InfoValue) :=
  [(ascii "algorithm", .str AlgorithmIdentifier),
   (ascii "hash_function", .str (ascii "SHA-256")),
   (ascii "hmac", .bool true),
   (ascii "default_salt_length", .int DefaultSaltLength),
   (ascii "hash_format", .str (ascii "algorithm$salt$hash")),
   (ascii "encoding", .str (ascii "base64url"))]

end A3

/-! ## `data/projects/a2/hashpassword.go` -/

namespace A2

/-- The constant `algorithm`. -/
def algorithm : List Byte := ascii "hmac_sha256"

/-- The constant `saltSize`. -/
def saltSize : Nat := 32

/-- The constant `separator`, the one-byte string `$`. -/
def separator : Byte := 36

/-- The errors of the a2 package: its two sentinels and the errors built where they are
returned. -/
inductive Error where
  /-- The sentinel `errors.New("invalid hash format")`. -/
  | ErrInvalidHashFormat
  /-- The sentinel `errors.New("unsupported algorithm")`. -/
  | ErrInvalidAlgorithm
  /-- The error `errors.New("password cannot be empty")`. -/
  | passwordEmpty
  /-- The error `errors.New("hash cannot be empty")`. -/
  | hashEmpty
  /-- The error `errors.New("secret key cannot be empty")`. -/
  | secretKeyEmpty
  /-- The error `fmt.Errorf("failed to generate salt: %w", cause)`. -/
  | failedToGenerateSalt (cause : OpenTask.Error)
  /-- The error `fmt.Errorf("failed to decode salt: %w", cause)`. -/
  | failedToDecodeSalt (cause : OpenTask.Error)
  deriving DecidableEq, Repr

/-- The function `computeHMAC` of a2: the salt is appended to the password bytes and the
message is written to the HMAC in one piece. -/
def computeHMAC (password secretKey : List Byte) (salt : List Byte) : List Byte :=
  ((HMAC.New secretKey).Write (password ++ salt)).Sum

/-- The function `HashPassword` of a2, with the random source passed in and handed back. -/
def HashPassword (password secretKey : List Byte) (rd : Rand.Reader) :
    (List Byte × Option Error) × Rand.Reader :=
  if password = [] then (([], some .passwordEmpty), rd)
  else if secretKey = [] then (([], some .secretKeyEmpty), rd)
  else
    match rd.Read saltSize with
    | (.error err, rd1) => (([], some (.failedToGenerateSalt err)), rd1)
    | (.ok salt, rd1) =>
        let hash := computeHMAC password secretKey salt
        let saltB64 := Base64.RawStdEncoding.EncodeToString salt
        let hashB64 := Base64.RawStdEncoding.EncodeToString hash
        ((algorithm ++ [separator] ++ saltB64 ++ [separator] ++ hashB64, none), rd1)

/-- The function `VerifyPassword` of a2: the digest is recomputed, encoded, and the two
encoded texts are compared with `hmac.Equal`. -/
def VerifyPassword (password hash secretKey : List Byte) : Bool × Option Error :=
  if password = [] then (false, some .passwordEmpty)
  else if hash = [] then (false, some .hashEmpty)
  else if secretKey = [] then (false, some .secretKeyEmpty)
  else
    let parts := Split hash separator
    if parts.length ≠ 3 then (false, some .ErrInvalidHashFormat)
    else
      let algo := parts.getD 0 []
      let saltB64 := parts.getD 1 []
      let hashB64 := parts.getD 2 []
      if algo ≠ algorithm then (false, some .ErrInvalidAlgorithm)
      else
        match Base64.RawStdEncoding.DecodeString saltB64 with
        | .error off => (false, some (.failedToDecodeSalt (.corruptInput off)))
        | .ok salt =>
            let expectedHash := computeHMAC password secretKey salt
            let expectedHashB64 := Base64.RawStdEncoding.EncodeToString expectedHash
            (HMAC.Equal expectedHashB64 hashB64, none)

end A2

/-! ## `data/projects/a3/randomanimals.go` -/

namespace RandomAnimals

/-- The package variable `animals`, the list of 10 animal types. -/
def animals : List (List Byte) :=
  [ascii "Lion", ascii "Tiger", ascii "Elephant", ascii "Giraffe", ascii "Monkey",
   ascii "Bear", ascii "Wolf", ascii "Fox", ascii "Deer", ascii "Rabbit"]

/-- The errors `GetRandomAnimals` returns. -/
inductive Error where
  /-- The error `errors.New("count must be greater than 0")`. -/
  | countNotPositive
  /-- The error `errors.New("count cannot exceed available animal types")`. -/
  | countExceeds
  /-- An error of `rand.Int`, returned as it is. -/
  | rand (err : OpenTask.Error)
  deriving DecidableEq, Repr

/-- The assignment `shuffled[i], shuffled[j] = shuffled[j], shuffled[i]`: both elements are
read first, then `shuffled[i]` and `shuffled[j]` are written in this order. -/
def swap (shuffled : List (List Byte)) (i j : Nat) : List (List Byte) :=
  (shuffled.set i (shuffled.getD j [])).set j (shuffled.getD i [])

/-- The Fisher-Yates loop `for i := ...; i > 0; i--` from the index `i` down to 1: each
round draws `j` from `[0, i]` and swaps the elements at `i` and `j`; an error of the source
ends the loop. -/
def shuffleFrom : Nat → List (List Byte) → Rand.IntSource →
    Except OpenTask.Error (List (List Byte)) × Rand.IntSource
  | 0, shuffled, src => (.ok shuffled, src)
  | i + 1, shuffled, src =>
      match src.Int (i + 1 + 1) with
      | (.error err, src1) => (.error err, src1)
      | (.ok j, src1) => shuffleFrom i (swap shuffled (i + 1) j) src1

/-- The function `GetRandomAnimals`, with the random source passed in and handed back. The
`nil` slice returned with an error is the empty list. -/
def GetRandomAnimals (count : Int) (src : Rand.IntSource) :
    (List (List Byte) × Option Error) × Rand.IntSource :=
  if count ≤ 0 then (([], some .countNotPositive), src)
  else if count > (animals.length : Int) then (([], some .countExceeds), src)
  else
    match shuffleFrom (animals.length - 1) animals src with
    | (.error err, src1) => (([], some (.rand err)), src1)
    | (.ok shuffled, src1) => ((shuffled.take count.toNat, none), src1)

end RandomAnimals

/-! ## `data/projects/a3/randompassword.go` -/

namespace RandomPassword

/-- The constant `upperChars`. -/
def upperChars : List Byte := ascii "ABCDEFGHIJKLMNOPQRSTUVWXYZ"

/-- The constant `lowerChars`. -/
def lowerChars : List Byte := ascii "abcdefghijklmnopqrstuvwxyz"

/-- The constant `numberChars`. -/
def numberChars : List Byte := ascii "0123456789"

/-- The constant `specialChars`. -/
def specialChars : List Byte := ascii "!@#$%^&*()_+-=[]\x7b\x7d|;:,.<>?"

/-- The errors `GeneratePasswordWithOptions` returns. -/
inductive Error where
  /-- The error `errors.New("password length must be greater than 0")`. -/
  | lengthNotPositive
  /-- The error `errors.New("at least one character set must be selected")`. -/
  | noCharacterSet
  /-- An error of `rand.Int`, returned as it is. -/
  | rand (err : OpenTask.Error)
  deriving DecidableEq, Repr

/-- The loop `for i := ...; i < length; i++` with `rounds` rounds left from the index `i`:
each round draws an index into the charset and writes that character to `password[i]`; an
error of the source ends the loop. -/
def fillFrom (charset : List Byte) : Nat → Nat → List Byte → Rand.IntSource →
    Except OpenTask.Error (List Byte) × Rand.IntSource
  | 0, _, password, src => (.ok password, src)
  | rounds + 1, i, password, src =>
      match src.Int charset.length with
      | (.error err, src1) => (.error err, src1)
      | (.ok randomIndex, src1) =>
          fillFrom charset rounds (i + 1) (password.set i (charset.getD randomIndex 0)) src1

/-- The function `GeneratePasswordWithOptions`, with the random source passed in and handed
back. -/
def GeneratePasswordWithOptions (length : Int) (useUpper useLower useNumbers useSpecial : Bool)
    (src : Rand.IntSource) : (List Byte × Option Error) × Rand.IntSource :=
  if length ≤ 0 then (([], some .lengthNotPositive), src)
  else
    let charset := (if useUpper then upperChars else []) ++ (if useLower then lowerChars else []) ++
      (if useNumbers then numberChars else []) ++ (if useSpecial then specialChars else [])
    if charset = [] then (([], some .noCharacterSet), src)
    else
      match fillFrom charset length.toNat 0 (List.replicate length.toNat 0) src with
      | (.error err, src1) => (([], some (.rand err)), src1)
      | (.ok password, src1) => ((password, none), src1)

/-- The function `GeneratePassword`: all four character sets. -/
def GeneratePassword (length : Int) (src : Rand.IntSource) :
    (List Byte × Option Error) × Rand.IntSource :=
  GeneratePasswordWithOptions length true true true true src

/-- The function `GeneratePasswordDefault`: 30 characters. -/
def GeneratePasswordDefault (src : Rand.IntSource) :
    (List Byte × Option Error) × Rand.IntSource :=
  GeneratePassword 30 src

end RandomPassword

/-! ## `data/projects/x1/factorial.go` -/

namespace X1

/-- The value of an integer as a Go `int` of 64 bits: wrap-around into
`[-2^63, 2^63)`. -/
def wrap64 (x : Int) : Int := (x + 9223372036854775808) % 18446744073709551616 - 9223372036854775808

/-- The largest `int`, `math.MaxInt64`. -/
def MaxInt64 : Int := 9223372036854775807

/-- The error `errors.New("factorial is not defined for negative numbers")`. -/
inductive Error where
  | negative
  deriving DecidableEq, Repr

/-- The loop `for i := 1; i <= n; i++ { result *= i }` from the state `result`, `i`, both
machine integers; `fuel` bounds the number of times the condition is tested, and `none`
means the loop has not ended within it. -/
def factorialLoop (n : Int) : Nat → Int → Int → Option Int
  | 0, _, _ => none
  | fuel + 1, result, i =>
      if i ≤ n then factorialLoop n fuel (wrap64 (result * i)) (wrap64 (i + 1))
      else some result

/-- The function `Factorial`; `none` means it has not returned within the fuel. -/
def Factorial (fuel : Nat) (n : Int) : Option (Int × Option Error) :=
  if n < 0 then some (0, some .negative)
  else if n = 0 then some (1, none)
  else (factorialLoop n fuel 1 1).map (fun result => (result, none))

end X1

end OpenTask

/-! # Theorems -/

namespace OpenTask

theorem byte_val (n : Nat) : (byte n).val = n % 256 := rfl

/-! ## The base64 decoder reads back what the encoder wrote -/

namespace Base64

theorem URLEncoding_valid : URLEncoding.Valid := by
  constructor
  · decide
  · intro p hp
    have : p = 61 := by
      simp [URLEncoding] at hp
      exact hp.symm
    subst this
    decide

theorem quantumBytes_three (a b c : Byte) :
    quantumBytes [(a.val * 65536 + b.val * 256 + c.val) / 262144 % 64,
      (a.val * 65536 + b.val * 256 + c.val) / 4096 % 64,
      (a.val * 65536 + b.val * 256 + c.val) / 64 % 64,
      (a.val * 65536 + b.val * 256 + c.val) % 64] 4 = [a, b, c] := by
  have ha := a.isLt
  have hb := b.isLt
  have hc := c.isLt
  simp only [quantumBytes, List.getD_cons_zero, List.getD_cons_succ, List.take]
  refine congrArg₂ _ ?_ (congrArg₂ _ ?_ (congrArg₂ _ ?_ rfl)) <;>
    (apply Fin.ext; simp only [byte_val]; omega)

theorem decodeMap_sym {enc : Encoding} (hv : enc.Valid) (v : Nat) :
    enc.decodeMap (enc.sym v) = v % 64 := by
  have h := hv.decodeMap_sym ⟨v % 64, Nat.mod_lt _ (by decide)⟩
  simpa [Encoding.sym] using h

theorem decodeFrom_sym {enc : Encoding} (hv : enc.Valid) (total v : Nat) (rest : List Byte)
    (si : Nat) (dbuf : List Nat) (dst : List Byte) :
    enc.decodeFrom total (enc.sym v :: rest) si dbuf dst =
      if dbuf.length = 3 then
        enc.decodeFrom total rest (si + 1) [] (dst ++ quantumBytes (dbuf ++ [v % 64]) 4)
      else enc.decodeFrom total rest (si + 1) (dbuf ++ [v % 64]) dst := by
  have h1 : enc.decodeMap (enc.sym v) = v % 64 := decodeMap_sym hv v
  have h2 : v % 64 ≠ 255 := by omega
  rw [Encoding.decodeFrom, h1, if_pos h2]

theorem decodeFrom_four {enc : Encoding} (hv : enc.Valid) (total v0 v1 v2 v3 : Nat)
    (rest : List Byte) (si : Nat) (dst : List Byte) :
    enc.decodeFrom total (enc.sym v0 :: enc.sym v1 :: enc.sym v2 :: enc.sym v3 :: rest) si [] dst =
      enc.decodeFrom total rest (si + 4) []
        (dst ++ quantumBytes [v0 % 64, v1 % 64, v2 % 64, v3 % 64] 4) := by
  simp [decodeFrom_sym hv]

theorem quantumBytes_two (a b : Byte) :
    quantumBytes [(a.val * 65536 + b.val * 256) / 262144 % 64,
      (a.val * 65536 + b.val * 256) / 4096 % 64,
      (a.val * 65536 + b.val * 256) / 64 % 64] 3 = [a, b] := by
  have ha := a.isLt
  have hb := b.isLt
  simp only [quantumBytes, List.getD_cons_zero, List.getD_cons_succ, List.getD_nil, List.take]
  refine congrArg₂ _ ?_ (congrArg₂ _ ?_ rfl) <;>
    (apply Fin.ext; simp only [byte_val]; omega)

theorem quantumBytes_one (a : Byte) :
    quantumBytes [(a.val * 65536) / 262144 % 64, (a.val * 65536) / 4096 % 64] 2 = [a] := by
  have ha := a.isLt
  simp only [quantumBytes, List.getD_cons_zero, List.getD_cons_succ, List.getD_nil, List.take]
  refine congrArg₂ _ ?_ rfl
  apply Fin.ext; simp only [byte_val]; omega

theorem decodeFrom_padding_one {enc : Encoding} (hv : enc.Valid) (total si : Nat)
    (d0 d1 d2 : Nat) (dst : List Byte) :
    enc.decodeFrom total (enc.padding 1) si [d0, d1, d2] dst =
      .ok (dst ++ quantumBytes [d0, d1, d2] 3) := by
  cases hp : enc.padChar with
  | none => simp [Encoding.padding, hp, Encoding.decodeFrom]
  | some p =>
    obtain ⟨h1, h2, h3⟩ := hv.pad_outside p hp
    simp [Encoding.padding, hp, Encoding.decodeFrom, h1, h2, h3, skipNewlines]

theorem decodeFrom_padding_two {enc : Encoding} (hv : enc.Valid) (total si : Nat)
    (d0 d1 : Nat) (dst : List Byte) :
    enc.decodeFrom total (enc.padding 2) si [d0, d1] dst =
      .ok (dst ++ quantumBytes [d0, d1] 2) := by
  cases hp : enc.padChar with
  | none => simp [Encoding.padding, hp, Encoding.decodeFrom]
  | some p =>
    obtain ⟨h1, h2, h3⟩ := hv.pad_outside p hp
    simp [Encoding.padding, hp, Encoding.decodeFrom, h1, h2, h3, skipNewlines, List.replicate]

theorem decodeFrom_EncodeToString {enc : Encoding} (hv : enc.Valid) (total : Nat) :
    ∀ (s : List Byte) (si : Nat) (dst : List Byte),
      enc.decodeFrom total (enc.EncodeToString s) si [] dst = .ok (dst ++ s)
  | a :: b :: c :: rest, si, dst => by
    rw [Encoding.EncodeToString, decodeFrom_four hv, decodeFrom_EncodeToString hv total rest,
      quantumBytes_three]
    simp
  | [a, b], si, dst => by
    simp only [Encoding.EncodeToString, List.cons_append, List.nil_append, decodeFrom_sym hv,
      List.length_nil, List.length_cons]
    simp only [Nat.reduceAdd, Nat.reduceEqDiff, if_false, decodeFrom_padding_one hv]
    rw [quantumBytes_two]
  | [a], si, dst => by
    simp only [Encoding.EncodeToString, List.cons_append, List.nil_append, decodeFrom_sym hv,
      List.length_nil, List.length_cons]
    simp only [Nat.reduceAdd, Nat.reduceEqDiff, if_false, decodeFrom_padding_two hv]
    rw [quantumBytes_one]
  | [], si, dst => by
    simp [Encoding.EncodeToString, Encoding.decodeFrom]

/-- Decoding what `EncodeToString` wrote gives the bytes back. -/
theorem DecodeString_EncodeToString {enc : Encoding} (hv : enc.Valid) (s : List Byte) :
    enc.DecodeString (enc.EncodeToString s) = .ok s := by
  simpa using decodeFrom_EncodeToString hv _ s 0 []

theorem mem_EncodeToString {enc : Encoding} :
    ∀ (s : List Byte) (c : Byte), c ∈ enc.EncodeToString s →
      (∃ i : Fin 64, c = enc.sym i.val) ∨ enc.padChar = some c
  | a :: b :: d :: rest, c, h => by
    have hs : ∀ v : Nat, ∃ i : Fin 64, enc.sym v = enc.sym i.val :=
      fun v => ⟨⟨v % 64, Nat.mod_lt _ (by decide)⟩, by simp [Encoding.sym]⟩
    simp only [Encoding.EncodeToString, List.mem_cons] at h
    rcases h with h | h | h | h | h
    · obtain ⟨i, hi⟩ := hs ((a.val * 65536 + b.val * 256 + d.val) / 262144)
      exact Or.inl ⟨i, h.trans hi⟩
    · obtain ⟨i, hi⟩ := hs ((a.val * 65536 + b.val * 256 + d.val) / 4096)
      exact Or.inl ⟨i, h.trans hi⟩
    · obtain ⟨i, hi⟩ := hs ((a.val * 65536 + b.val * 256 + d.val) / 64)
      exact Or.inl ⟨i, h.trans hi⟩
    · obtain ⟨i, hi⟩ := hs (a.val * 65536 + b.val * 256 + d.val)
      exact Or.inl ⟨i, h.trans hi⟩
    · exact mem_EncodeToString rest c h
  | [a, b], c, h => by
    have hs : ∀ v : Nat, ∃ i : Fin 64, enc.sym v = enc.sym i.val :=
      fun v => ⟨⟨v % 64, Nat.mod_lt _ (by decide)⟩, by simp [Encoding.sym]⟩
    simp only [Encoding.EncodeToString, List.cons_append, List.nil_append, List.mem_cons] at h
    rcases h with h | h | h | h
    · obtain ⟨i, hi⟩ := hs ((a.val * 65536 + b.val * 256) / 262144)
      exact Or.inl ⟨i, h.trans hi⟩
    · obtain ⟨i, hi⟩ := hs ((a.val * 65536 + b.val * 256) / 4096)
      exact Or.inl ⟨i, h.trans hi⟩
    · obtain ⟨i, hi⟩ := hs ((a.val * 65536 + b.val * 256) / 64)
      exact Or.inl ⟨i, h.trans hi⟩
    · right
      cases hp : enc.padChar with
      | none => simp [Encoding.padding, hp] at h
      | some p =>
        simp [Encoding.padding, hp] at h
        simp [h]
  | [a], c, h => by
    have hs : ∀ v : Nat, ∃ i : Fin 64, enc.sym v = enc.sym i.val :=
      fun v => ⟨⟨v % 64, Nat.mod_lt _ (by decide)⟩, by simp [Encoding.sym]⟩
    simp only [Encoding.EncodeToString, List.cons_append, List.nil_append, List.mem_cons] at h
    rcases h with h | h | h
    · obtain ⟨i, hi⟩ := hs ((a.val * 65536) / 262144)
      exact Or.inl ⟨i, h.trans hi⟩
    · obtain ⟨i, hi⟩ := hs ((a.val * 65536) / 4096)
      exact Or.inl ⟨i, h.trans hi⟩
    · right
      cases hp : enc.padChar with
      | none => simp [Encoding.padding, hp] at h
      | some p =>
        simp [Encoding.padding, hp, List.replicate] at h
        simp [h]
  | [], c, h => by simp [Encoding.EncodeToString] at h

/-- No `$` occurs in a string written by `URLEncoding`. -/
theorem dollar_not_mem_URLEncoding (s : List Byte) : (36 : Byte) ∉ URLEncoding.EncodeToString s := by
  intro h
  rcases mem_EncodeToString s 36 h with ⟨i, hi⟩ | hp
  · revert i
    decide
  · simp [URLEncoding] at hp

theorem mem_skipNewlines {c : Byte} (h10 : c ≠ 10) (h13 : c ≠ 13) :
    ∀ (l : List Byte) (si : Nat), c ∈ l → c ∈ (skipNewlines l si).1
  | [], _, h => by simp at h
  | d :: l, si, h => by
    rw [skipNewlines]
    split
    · rename_i hd
      apply mem_skipNewlines h10 h13 l
      rcases List.mem_cons.mp h with e | e
      · subst e
        rcases hd with hd | hd
        · exact absurd hd h10
        · exact absurd hd h13
      · exact e
    · exact h

/-- A byte that is no symbol, no newline and not the padding character makes the decoder
fail, wherever it stands. -/
theorem decodeFrom_error_of_mem {enc : Encoding} {c : Byte} (hm : enc.decodeMap c = 0xff)
    (h10 : c ≠ 10) (h13 : c ≠ 13) (hpad : some c ≠ enc.padChar) (total : Nat) :
    ∀ (src : List Byte) (si : Nat) (dbuf : List Nat) (dst : List Byte), c ∈ src →
      ∃ off, enc.decodeFrom total src si dbuf dst = .error off
  | [], _, _, _, h => by simp at h
  | d :: rest, si, dbuf, dst, h => by
    rw [Encoding.decodeFrom]
    by_cases hd : d = c
    · subst hd
      simp [hm, h10, h13, hpad]
    · have hrest : c ∈ rest := by
        rcases List.mem_cons.mp h with e | e
        · exact absurd e.symm hd
        · exact e
      split
      · split
        · exact decodeFrom_error_of_mem hm h10 h13 hpad total rest _ _ _ hrest
        · exact decodeFrom_error_of_mem hm h10 h13 hpad total rest _ _ _ hrest
      · split
        · exact decodeFrom_error_of_mem hm h10 h13 hpad total rest _ _ _ hrest
        · split
          · exact ⟨_, rfl⟩
          · rename_i hp
            split
            · exact ⟨_, rfl⟩
            · split
              · have hmem := mem_skipNewlines h10 h13 rest (si + 1) hrest
                split
                · rename_i heq
                  rw [heq] at hmem
                  simp at hmem
                · rename_i e rest2 si1 heq
                  rw [heq] at hmem
                  split
                  · exact ⟨_, rfl⟩
                  · rename_i he
                    have hec : e ≠ c := by
                      intro h'
                      subst h'
                      exact hpad (not_not.mp he)
                    have hr2 : c ∈ rest2 := by
                      rcases List.mem_cons.mp hmem with e1 | e1
                      · exact absurd e1.symm hec
                      · exact e1
                    have hm2 := mem_skipNewlines h10 h13 rest2 (si1 + 1) hr2
                    have hne : (skipNewlines rest2 (si1 + 1)).1 ≠ [] := by
                      intro h0
                      rw [h0] at hm2
                      simp at hm2
                    rw [if_pos hne]
                    exact ⟨_, rfl⟩
              · have hmem := mem_skipNewlines h10 h13 rest (si + 1) hrest
                have hne : (skipNewlines rest (si + 1)).1 ≠ [] := by
                  intro h0
                  rw [h0] at hmem
                  simp at hmem
                rw [if_pos hne]
                exact ⟨_, rfl⟩

/-- The decoder `URLEncoding.DecodeString` rejects every string that holds a `$`. -/
theorem DecodeString_dollar {s : List Byte} (h : (36 : Byte) ∈ s) :
    ∃ off, URLEncoding.DecodeString s = .error off :=
  decodeFrom_error_of_mem (by decide) (by decide) (by decide) (by decide) _ s 0 [] [] h

/-- The encoder `EncodeToString` of a valid encoding is injective. -/
theorem EncodeToString_injective {enc : Encoding} (hv : enc.Valid) {s t : List Byte}
    (h : enc.EncodeToString s = enc.EncodeToString t) : s = t := by
  have hs := DecodeString_EncodeToString hv s
  rw [h, DecodeString_EncodeToString hv t] at hs
  exact (Except.ok.inj hs).symm

theorem RawStdEncoding_valid : RawStdEncoding.Valid := by
  constructor
  · decide
  · intro p hp
    simp [RawStdEncoding] at hp

/-- No `$` occurs in a string written by `RawStdEncoding`. -/
theorem dollar_not_mem_RawStdEncoding (s : List Byte) :
    (36 : Byte) ∉ RawStdEncoding.EncodeToString s := by
  intro h
  rcases mem_EncodeToString s 36 h with ⟨i, hi⟩ | hp
  · revert i
    decide
  · simp [RawStdEncoding] at hp

/-- The length of the text `EncodeToString` writes: four symbols for every three bytes, the
last group padded to four with padding and cut to what is needed without. -/
theorem length_EncodeToString (enc : Encoding) : ∀ (s : List Byte),
    (enc.EncodeToString s).length =
      if enc.padChar = none then (4 * s.length + 2) / 3 else 4 * ((s.length + 2) / 3)
  | a :: b :: c :: rest => by
    rw [Encoding.EncodeToString]
    simp only [List.length_cons, length_EncodeToString enc rest]
    split <;> omega
  | [a, b] => by
    cases hp : enc.padChar <;> simp [Encoding.EncodeToString, Encoding.padding, hp]
  | [a] => by
    cases hp : enc.padChar <;> simp [Encoding.EncodeToString, Encoding.padding, hp]
  | [] => by simp [Encoding.EncodeToString]

/-- A padded decoder accepts a text without padding characters and newlines only when its
symbols fill whole groups of four. -/
theorem decodeFrom_ok_length {enc : Encoding} {p : Byte} (hpad : enc.padChar = some p)
    (total : Nat) : ∀ (src : List Byte) (si : Nat) (dbuf : List Nat) (dst out : List Byte),
    (∀ c ∈ src, c ≠ 10 ∧ c ≠ 13 ∧ c ≠ p) → dbuf.length < 4 →
    enc.decodeFrom total src si dbuf dst = .ok out → (dbuf.length + src.length) % 4 = 0
  | [], si, dbuf, dst, out, _, _, h => by
    rw [Encoding.decodeFrom] at h
    by_cases h0 : dbuf.length = 0
    · simp [h0]
    · simp [h0, hpad] at h
  | c :: rest, si, dbuf, dst, out, hc, hd, h => by
    obtain ⟨h10, h13, hcp⟩ := hc c (by simp)
    have hrest : ∀ c ∈ rest, c ≠ 10 ∧ c ≠ 13 ∧ c ≠ p := fun d hd => hc d (by simp [hd])
    rw [Encoding.decodeFrom] at h
    by_cases hm : enc.decodeMap c ≠ 0xff
    · rw [if_pos hm] at h
      by_cases h3 : dbuf.length = 3
      · rw [if_pos h3] at h
        have := decodeFrom_ok_length hpad total rest _ _ _ _ hrest (by simp) h
        simp only [List.length_nil, List.length_cons] at this ⊢
        omega
      · rw [if_neg h3] at h
        have := decodeFrom_ok_length hpad total rest _ _ _ _ hrest
          (by simp only [List.length_append, List.length_singleton]; omega) h
        simp only [List.length_append, List.length_singleton, List.length_cons, List.length_nil]
          at this ⊢
        omega
    · rw [if_neg hm] at h
      have hnl : ¬ (c = 10 ∨ c = 13) := by
        intro h'
        rcases h' with h' | h'
        · exact h10 h'
        · exact h13 h'
      have hnp : some c ≠ enc.padChar := by
        rw [hpad]
        intro h'
        exact hcp (Option.some.inj h')
      rw [if_neg hnl, if_pos hnp] at h
      simp at h

/-- No newline and no `=` occurs in a string written by `RawStdEncoding`. -/
theorem mem_RawStdEncoding (s : List Byte) :
    ∀ c ∈ RawStdEncoding.EncodeToString s, c ≠ 10 ∧ c ≠ 13 ∧ c ≠ 61 := by
  intro c h
  rcases mem_EncodeToString s c h with ⟨i, hi⟩ | hp
  · subst hi
    clear h
    revert i
    decide
  · simp [RawStdEncoding] at hp

/-- The padded URL-safe decoder rejects the unpadded text of a byte string whose length is
no multiple of three. -/
theorem URLEncoding_rejects_RawStdEncoding (s : List Byte) (h : s.length % 3 ≠ 0) :
    ∃ off, URLEncoding.DecodeString (RawStdEncoding.EncodeToString s) = .error off := by
  cases hd : URLEncoding.DecodeString (RawStdEncoding.EncodeToString s) with
  | error off => exact ⟨off, rfl⟩
  | ok out =>
    exfalso
    have hlen := @decodeFrom_ok_length URLEncoding 61 rfl _ _ 0 [] [] out
      (mem_RawStdEncoding s) (by simp) hd
    rw [length_EncodeToString] at hlen
    simp only [RawStdEncoding, if_true, List.length_nil] at hlen
    omega

end Base64

/-! ## `Split` -/

theorem Split_ne_nil (s : List Byte) (sep : Byte) : Split s sep ≠ [] := by
  cases s with
  | nil => simp [Split]
  | cons c cs =>
    rw [Split]
    split
    · simp
    · split <;> simp

theorem Split_cons_ne {c sep : Byte} (h : c ≠ sep) (cs : List Byte) :
    Split (c :: cs) sep = (c :: (Split cs sep).headD []) :: (Split cs sep).tail := by
  rw [Split, if_neg h]
  cases hs : Split cs sep with
  | nil => exact absurd hs (Split_ne_nil cs sep)
  | cons p ps => simp

theorem Split_not_mem {sep : Byte} : ∀ (a : List Byte), sep ∉ a → Split a sep = [a]
  | [], _ => by simp [Split]
  | c :: cs, h => by
    have hc : c ≠ sep := fun e => h (by simp [e])
    have hcs : sep ∉ cs := fun e => h (by simp [e])
    rw [Split_cons_ne hc, Split_not_mem cs hcs]
    simp

theorem Split_append_sep {sep : Byte} (b : List Byte) :
    ∀ (a : List Byte), sep ∉ a → Split (a ++ sep :: b) sep = a :: Split b sep
  | [], _ => by simp [Split]
  | c :: cs, h => by
    have hc : c ≠ sep := fun e => h (by simp [e])
    have hcs : sep ∉ cs := fun e => h (by simp [e])
    rw [List.cons_append, Split_cons_ne hc, Split_append_sep b cs hcs]
    simp

theorem length_Split (sep : Byte) : ∀ (s : List Byte), (Split s sep).length = s.count sep + 1
  | [] => by simp [Split]
  | c :: cs => by
    by_cases hc : c = sep
    · subst hc
      simp [Split, length_Split c cs]
    · rw [Split_cons_ne hc, List.count_cons_of_ne (Ne.symm hc)]
      have := length_Split sep cs
      have hne := Split_ne_nil cs sep
      cases hs : Split cs sep with
      | nil => exact absurd hs hne
      | cons p ps => simp [hs] at this ⊢; omega

theorem head_Split (sep : Byte) : ∀ (s : List Byte),
    (Split s sep).getD 0 [] = s.takeWhile (fun c => c ≠ sep)
  | [] => by simp [Split]
  | c :: cs => by
    by_cases hc : c = sep
    · subst hc
      simp [Split]
    · rw [Split_cons_ne hc]
      have := head_Split sep cs
      cases hs : Split cs sep with
      | nil => exact absurd hs (Split_ne_nil cs sep)
      | cons p ps =>
        simp [hs] at this
        simp [List.takeWhile_cons, hc, this]

/-- A list that holds `sep` is cut at the first `sep`: the piece before it is the longest
piece without `sep`, and the rest holds one `sep` less. -/
theorem exists_cut_at_first (sep : Byte) : ∀ (l : List Byte), 0 < l.count sep →
    ∃ rest, l = l.takeWhile (fun c => c ≠ sep) ++ sep :: rest ∧
      l.count sep = rest.count sep + 1
  | [], h => by simp at h
  | c :: cs, h => by
    by_cases hc : c = sep
    · subst hc
      exact ⟨cs, by simp, by simp⟩
    · have hcnt : (c :: cs).count sep = cs.count sep := List.count_cons_of_ne (Ne.symm hc) cs
      rw [hcnt] at h
      obtain ⟨rest, h1, h2⟩ := exists_cut_at_first sep cs h
      refine ⟨rest, ?_, by rw [hcnt, h2]⟩
      have : (c :: cs).takeWhile (fun c => c ≠ sep) = c :: cs.takeWhile (fun c => c ≠ sep) := by
        simp [List.takeWhile_cons, hc]
      rw [this, List.cons_append, ← h1]

theorem not_mem_takeWhile_ne (sep : Byte) (l : List Byte) :
    sep ∉ l.takeWhile (fun c => c ≠ sep) := by
  intro h
  have := List.mem_takeWhile_imp h
  simp at this

/-- A record with exactly two separators is three fields without separator. -/
theorem exists_three_fields (sep : Byte) (l : List Byte) (h : l.count sep = 2) :
    ∃ S D, l = l.takeWhile (fun c => c ≠ sep) ++ [sep] ++ S ++ [sep] ++ D ∧
      sep ∉ S ∧ sep ∉ D := by
  obtain ⟨r1, e1, c1⟩ := exists_cut_at_first sep l (by omega)
  have hr1 : r1.count sep = 1 := by omega
  obtain ⟨r2, e2, c2⟩ := exists_cut_at_first sep r1 (by omega)
  have hr2 : r2.count sep = 0 := by omega
  refine ⟨r1.takeWhile (fun c => c ≠ sep), r2, ?_, not_mem_takeWhile_ne sep r1, ?_⟩
  · calc l = l.takeWhile (fun c => c ≠ sep) ++ sep :: r1 := e1
      _ = l.takeWhile (fun c => c ≠ sep) ++ sep ::
            (r1.takeWhile (fun c => c ≠ sep) ++ sep :: r2) := by rw [← e2]
      _ = _ := by simp
  · exact List.count_eq_zero.mp hr2

/-! ## `ConstantTimeCompare` decides equality -/

namespace Subtle

theorem lor_eq_zero {a b : Nat} : a ||| b = 0 ↔ a = 0 ∧ b = 0 := by
  constructor
  · intro h
    constructor
    · apply Nat.eq_of_testBit_eq
      intro i
      have := congrArg (fun n => n.testBit i) h
      simp only [Nat.testBit_or, Nat.zero_testBit, Bool.or_eq_false_iff] at this
      simp [this.1]
    · apply Nat.eq_of_testBit_eq
      intro i
      have := congrArg (fun n => n.testBit i) h
      simp only [Nat.testBit_or, Nat.zero_testBit, Bool.or_eq_false_iff] at this
      simp [this.2]
  · rintro ⟨rfl, rfl⟩
    rfl

theorem foldl_lor_eq_zero : ∀ (l : List Nat) (v : Nat),
    l.foldl (fun v d => v ||| d) v = 0 ↔ v = 0 ∧ ∀ d ∈ l, d = 0
  | [], v => by simp
  | d :: l, v => by
    rw [List.foldl_cons, foldl_lor_eq_zero l, lor_eq_zero]
    simp
    tauto

theorem foldl_lor_lt : ∀ (l : List Nat) (v : Nat), v < 2 ^ 8 → (∀ d ∈ l, d < 2 ^ 8) →
    l.foldl (fun v d => v ||| d) v < 2 ^ 8
  | [], v, hv, _ => by simpa using hv
  | d :: l, v, hv, hl => by
    rw [List.foldl_cons]
    apply foldl_lor_lt l
    · exact Nat.or_lt_two_pow hv (hl d (by simp))
    · intro e he
      exact hl e (by simp [he])

theorem zipWith_xor_eq_zero : ∀ (x y : List Byte), x.length = y.length →
    ((∀ d ∈ List.zipWith (fun a b => a.val ^^^ b.val) x y, d = 0) ↔ x = y)
  | [], [], _ => by simp
  | [], _ :: _, h => by simp at h
  | _ :: _, [], h => by simp at h
  | a :: x, b :: y, h => by
    have ih := zipWith_xor_eq_zero x y (by simpa using h)
    simp only [List.zipWith_cons_cons, List.mem_cons, forall_eq_or_imp, ih, Nat.xor_eq_zero,
      List.cons.injEq]
    constructor
    · rintro ⟨h1, h2⟩
      exact ⟨Fin.ext h1, h2⟩
    · rintro ⟨h1, h2⟩
      exact ⟨congrArg _ h1, h2⟩

theorem zipWith_xor_lt (x y : List Byte) :
    ∀ d ∈ List.zipWith (fun a b => a.val ^^^ b.val) x y, d < 2 ^ 8 := by
  intro d hd
  rw [List.mem_iff_get] at hd
  obtain ⟨n, hn⟩ := hd
  rw [← hn, List.get_eq_getElem, List.getElem_zipWith]
  exact Nat.xor_lt_two_pow (Fin.isLt _) (Fin.isLt _)

/-- The comparison `ConstantTimeCompare` answers `1` exactly for equal byte sequences. -/
theorem ConstantTimeCompare_eq_one (x y : List Byte) :
    ConstantTimeCompare x y = 1 ↔ x = y := by
  unfold ConstantTimeCompare
  by_cases hl : x.length = y.length
  · rw [if_neg (by simpa using hl)]
    have hlt := foldl_lor_lt (List.zipWith (fun a b => a.val ^^^ b.val) x y) 0 (by decide)
      (zipWith_xor_lt x y)
    have hz := foldl_lor_eq_zero (List.zipWith (fun a b => a.val ^^^ b.val) x y) 0
    rw [zipWith_xor_eq_zero x y hl] at hz
    simp only [true_and] at hz
    rw [← hz]
    generalize (List.zipWith (fun a b => a.val ^^^ b.val) x y).foldl (fun v d => v ||| d) 0 = v
      at hlt ⊢
    simp only [ConstantTimeByteEq, byte_val, Fin.val_zero, Nat.xor_zero]
    omega
  · rw [if_pos (by simpa using hl)]
    constructor
    · intro h
      omega
    · intro h
      exact absurd (congrArg List.length h) hl

end Subtle

/-! ## Digest lengths -/

namespace SHA256

theorem length_Sum256 (msg : List Byte) : (Sum256 msg).length = 32 := by
  simp [Sum256, Digest.bytes, wordBytes]

end SHA256

namespace HMAC

theorem length_mac (key message : List Byte) : (mac key message).length = 32 :=
  SHA256.length_Sum256 _

theorem Sum_Write_Write (key p q : List Byte) :
    (((New key).Write p).Write q).Sum = mac key (p ++ q) := by
  simp [State.Sum, State.Write, New, mac]

end HMAC

/-! ## `HashPasswordWithSaltLength` and `VerifyPassword` -/

namespace A3

theorem Separator_not_mem_AlgorithmIdentifier : Separator ∉ AlgorithmIdentifier := by decide

theorem computeHMAC_eq (password secretKey salt : List Byte) :
    computeHMAC password secretKey salt = HMAC.mac secretKey (password ++ salt) :=
  HMAC.Sum_Write_Write secretKey password salt

theorem validateInputs_ok {password secretKey : List Byte} (hp : password ≠ [])
    (hk : secretKey ≠ []) : validateInputs password secretKey = none := by
  simp [validateInputs, hp, hk]

/-- What `Split` makes of a record with three fields. -/
theorem Split_record {A S D : List Byte} (hA : Separator ∉ A) (hS : Separator ∉ S)
    (hD : Separator ∉ D) :
    Split (A ++ [Separator] ++ S ++ [Separator] ++ D) Separator = [A, S, D] := by
  have e : A ++ [Separator] ++ S ++ [Separator] ++ D = A ++ Separator :: (S ++ Separator :: D) := by
    simp
  rw [e, Split_append_sep _ A hA, Split_append_sep _ S hS, Split_not_mem D hD]

/-- The result of `VerifyPassword` on a record `hmac_sha256$S$D` whose fields hold no `$`. -/
theorem VerifyPassword_record {password secretKey S D : List Byte} (hp : password ≠ [])
    (hk : secretKey ≠ []) (hS : Separator ∉ S) (hD : Separator ∉ D) :
    VerifyPassword password (AlgorithmIdentifier ++ [Separator] ++ S ++ [Separator] ++ D) secretKey =
      match Base64.URLEncoding.DecodeString S with
      | .error off => (false, some (.failedToDecodeSalt (.corruptInput off)))
      | .ok salt =>
          match Base64.URLEncoding.DecodeString D with
          | .error off => (false, some (.failedToDecodeHash (.corruptInput off)))
          | .ok expectedHash =>
              if HMAC.mac secretKey (password ++ salt) = expectedHash then (true, none)
              else (false, none) := by
  have hne : AlgorithmIdentifier ++ [Separator] ++ S ++ [Separator] ++ D ≠ [] := by
    simp [AlgorithmIdentifier, ascii]
  unfold VerifyPassword
  rw [validateInputs_ok hp hk]
  simp only [if_neg hne, Split_record Separator_not_mem_AlgorithmIdentifier hS hD]
  simp only [List.length_cons, List.length_nil, List.getD_cons_zero, List.getD_cons_succ,
    Subtle.ConstantTimeCompare_eq_one, computeHMAC_eq]
  simp

/-- What `HashPasswordWithSaltLength` returns when the inputs are valid and the source delivers `salt`. -/
theorem HashPasswordWithSaltLength_ok {password secretKey : List Byte} {saltLength : Int}
    {rd : Rand.Reader} {salt : List Byte} (hp : password ≠ []) (hk : secretKey ≠ [])
    (hn : 16 ≤ saltLength) (hr : (rd.Read saltLength.toNat).1 = .ok salt) :
    (HashPasswordWithSaltLength password secretKey saltLength rd).1 =
      (AlgorithmIdentifier ++ [Separator] ++ Base64.URLEncoding.EncodeToString salt ++ [Separator]
        ++ Base64.URLEncoding.EncodeToString (HMAC.mac secretKey (password ++ salt)), none) := by
  unfold HashPasswordWithSaltLength
  rw [validateInputs_ok hp hk]
  simp only [if_neg (not_lt.mpr hn)]
  rcases hread : rd.Read saltLength.toNat with ⟨res, rd1⟩
  rw [hread] at hr
  simp only at hr
  subst hr
  simp [computeHMAC_eq]

theorem Read_length {rd : Rand.Reader} {n : Nat} {salt : List Byte}
    (hr : (rd.Read n).1 = .ok salt) : salt.length = n := by
  unfold Rand.Reader.Read at hr
  split at hr
  · simp only [Except.ok.injEq] at hr
    subst hr
    simp
    omega
  · simp at hr

/-- The result of verifying against a record that `HashPasswordWithSaltLength` wrote. -/
theorem VerifyPassword_hashed {password secretKey candidate key2 : List Byte} (salt : List Byte)
    (hc : candidate ≠ []) (hk2 : key2 ≠ []) :
    VerifyPassword candidate
      (AlgorithmIdentifier ++ [Separator] ++ Base64.URLEncoding.EncodeToString salt ++ [Separator]
        ++ Base64.URLEncoding.EncodeToString (HMAC.mac secretKey (password ++ salt))) key2 =
      if HMAC.mac key2 (candidate ++ salt) = HMAC.mac secretKey (password ++ salt) then (true, none)
      else (false, none) := by
  rw [VerifyPassword_record hc hk2 (Base64.dollar_not_mem_URLEncoding _)
    (Base64.dollar_not_mem_URLEncoding _)]
  simp only [Base64.DecodeString_EncodeToString Base64.URLEncoding_valid]

/-- The error of `VerifyPassword` once the inputs are not empty, by the shape of the record. -/
theorem VerifyPassword_error_cases {password secretKey : List Byte} (hash : List Byte)
    (hp : password ≠ []) (hk : secretKey ≠ []) :
    (hash.count Separator ≠ 2 ∧
      VerifyPassword password hash secretKey = (false, some .ErrInvalidHash)) ∨
    (hash.count Separator = 2 ∧ hash.takeWhile (fun c => c ≠ Separator) ≠ AlgorithmIdentifier ∧
      VerifyPassword password hash secretKey = (false, some .ErrInvalidAlgorithm)) ∨
    (hash.count Separator = 2 ∧ hash.takeWhile (fun c => c ≠ Separator) = AlgorithmIdentifier ∧
      ((∃ off, VerifyPassword password hash secretKey =
          (false, some (.failedToDecodeSalt (.corruptInput off)))) ∨
       (∃ off, VerifyPassword password hash secretKey =
          (false, some (.failedToDecodeHash (.corruptInput off)))) ∨
       (∃ b, VerifyPassword password hash secretKey = (b, none)))) := by
  unfold VerifyPassword
  rw [validateInputs_ok hp hk]
  by_cases he : hash = []
  · subst he
    left
    simp
  · simp only [if_neg he, length_Split, head_Split]
    by_cases hc : hash.count Separator = 2
    · right
      simp only [hc]
      by_cases ha : hash.takeWhile (fun c => c ≠ Separator) = AlgorithmIdentifier
      · right
        refine ⟨trivial, ha, ?_⟩
        simp only [ha]
        simp only [ne_eq, not_true_eq_false, if_false]
        split
        · exact Or.inl ⟨_, rfl⟩
        · split
          · exact Or.inr (Or.inl ⟨_, rfl⟩)
          · right
            right
            split
            · exact ⟨_, rfl⟩
            · exact ⟨_, rfl⟩
      · left
        refine ⟨trivial, ha, ?_⟩
        simp only [ne_eq, decide_not] at ha
        simp [ha]
    · left
      refine ⟨hc, ?_⟩
      have : hash.count Separator + 1 ≠ 3 := by omega
      simp [this]

/-- Verifying a candidate password and key against the record `HashPasswordWithSaltLength`
wrote for valid inputs: no error, and `true` exactly when the two digests agree. -/
theorem VerifyPassword_HashPasswordWithSaltLength {password secretKey candidate key2 : List Byte}
    {saltLength : Int} {rd : Rand.Reader} {salt : List Byte} (hp : password ≠ [])
    (hk : secretKey ≠ []) (hc : candidate ≠ []) (hk2 : key2 ≠ []) (hn : 16 ≤ saltLength)
    (hr : (rd.Read saltLength.toNat).1 = .ok salt) :
    VerifyPassword candidate (HashPasswordWithSaltLength password secretKey saltLength rd).1.1 key2 =
      if HMAC.mac key2 (candidate ++ salt) = HMAC.mac secretKey (password ++ salt) then (true, none)
      else (false, none) := by
  rw [HashPasswordWithSaltLength_ok hp hk hn hr]
  exact VerifyPassword_hashed salt hc hk2

/-- Digests are 32 bytes, passwords are not bounded: for every key and salt two different
passwords of 33 bytes have the same HMAC-SHA256 digest. -/
theorem exists_password_collision (key salt : List Byte) :
    ∃ p q : List Byte, p ≠ [] ∧ q ≠ [] ∧ p ≠ q ∧
      HMAC.mac key (p ++ salt) = HMAC.mac key (q ++ salt) := by
  let f : (Fin 33 → Byte) → (Fin 32 → Byte) :=
    fun v i => (HMAC.mac key (List.ofFn v ++ salt)).getD i.val 0
  have hcard : Fintype.card (Fin 32 → Byte) < Fintype.card (Fin 33 → Byte) := by
    simp only [Fintype.card_fun, Fintype.card_fin]
    norm_num
  obtain ⟨v, w, hvw, hf⟩ := Fintype.exists_ne_map_eq_of_card_lt f hcard
  refine ⟨List.ofFn v, List.ofFn w, ?_, ?_, ?_, ?_⟩
  · intro h
    have := congrArg List.length h
    simp at this
  · intro h
    have := congrArg List.length h
    simp at this
  · intro h
    exact hvw (List.ofFn_injective h)
  · apply List.ext_getElem
    · rw [HMAC.length_mac, HMAC.length_mac]
    · intro i h1 h2
      rw [HMAC.length_mac] at h1
      have := congrFun hf ⟨i, h1⟩
      simp only [f] at this
      rw [List.getD_eq_getElem _ _ (by rw [HMAC.length_mac]; exact h1),
        List.getD_eq_getElem _ _ (by rw [HMAC.length_mac]; exact h1)] at this
      exact this

set_option maxRecDepth 1000000 in
/-- The wrong-password scenario evaluated: on the record of the password `correct` under the
key `key` with a salt of 32 bytes of value 3, the password `wrong` is rejected with
`(false, nil)`. -/
theorem VerifyPassword_rejects_wrong :
    VerifyPassword (ascii "wrong")
      (HashPassword (ascii "correct") (ascii "key") ⟨List.replicate 32 3, 0⟩).1.1
      (ascii "key") = (false, none) := by
  decide

/-- An error of `VerifyPassword` always comes with `false`. -/
theorem VerifyPassword_error_false (password hash secretKey : List Byte)
    (h : (VerifyPassword password hash secretKey).2 ≠ none) :
    (VerifyPassword password hash secretKey).1 = false := by
  by_cases hp : password = []
  · simp [VerifyPassword, validateInputs, hp]
  · by_cases hk : secretKey = []
    · simp [VerifyPassword, validateInputs, hp, hk]
    · rcases VerifyPassword_error_cases hash hp hk with ⟨_, h2⟩ | ⟨_, _, h3⟩ | ⟨_, _, h3⟩
      · rw [h2]
      · rw [h3]
      · rcases h3 with ⟨off, h3⟩ | ⟨off, h3⟩ | ⟨b, h3⟩
        · rw [h3]
        · rw [h3]
        · rw [h3] at h
          simp at h

theorem set_append_length (a : List Byte) (x y : Byte) (t : List Byte) :
    (a ++ x :: t).set a.length y = a ++ y :: t := by
  induction a with
  | nil => rfl
  | cons c a ih => simp [ih]

/-- When `VerifyPassword` accepts a record `hmac_sha256$S$D`, whatever `S` and `D` are: exactly
when both fields decode and the decoded `D` is the digest of the password with the decoded
`S`. -/
theorem VerifyPassword_true_iff {password secretKey : List Byte} (S D : List Byte)
    (hp : password ≠ []) (hk : secretKey ≠ []) :
    (VerifyPassword password (AlgorithmIdentifier ++ [Separator] ++ S ++ [Separator] ++ D)
      secretKey).1 = true ↔
      ∃ salt, Base64.URLEncoding.DecodeString S = .ok salt ∧
        Base64.URLEncoding.DecodeString D = .ok (HMAC.mac secretKey (password ++ salt)) := by
  by_cases hS : Separator ∈ S
  · obtain ⟨off, hoff⟩ := Base64.DecodeString_dollar hS
    have hcount : (AlgorithmIdentifier ++ [Separator] ++ S ++ [Separator] ++ D).count Separator ≠ 2 := by
      have : 0 < S.count Separator := List.count_pos_iff.mpr hS
      simp only [List.count_append, List.count_singleton_self]
      omega
    rcases VerifyPassword_error_cases (AlgorithmIdentifier ++ [Separator] ++ S ++ [Separator] ++ D)
      hp hk with ⟨_, h2⟩ | ⟨h1, _⟩ | ⟨h1, _⟩
    · rw [h2]
      simp [hoff]
    · exact absurd h1 hcount
    · exact absurd h1 hcount
  · by_cases hD : Separator ∈ D
    · obtain ⟨off, hoff⟩ := Base64.DecodeString_dollar hD
      have hcount : (AlgorithmIdentifier ++ [Separator] ++ S ++ [Separator] ++ D).count Separator ≠ 2 := by
        have : 0 < D.count Separator := List.count_pos_iff.mpr hD
        simp only [List.count_append, List.count_singleton_self]
        omega
      rcases VerifyPassword_error_cases (AlgorithmIdentifier ++ [Separator] ++ S ++ [Separator] ++ D)
        hp hk with ⟨_, h2⟩ | ⟨h1, _⟩ | ⟨h1, _⟩
      · rw [h2]
        simp [hoff]
      · exact absurd h1 hcount
      · exact absurd h1 hcount
    · rw [VerifyPassword_record hp hk hS hD]
      cases hs : Base64.URLEncoding.DecodeString S with
      | error off => simp
      | ok salt =>
        cases hd : Base64.URLEncoding.DecodeString D with
        | error off => simp
        | ok digest =>
          by_cases hm : HMAC.mac secretKey (password ++ salt) = digest
          · simp [hm]
          · simp only [if_neg hm]
            constructor
            · intro h
              simp at h
            · rintro ⟨salt2, h1, h2⟩
              simp only [Except.ok.injEq] at h1 h2
              subst h1
              exact absurd h2.symm hm

/-- A call of `HashPasswordWithSaltLength` that returns no error had valid inputs and a
source that delivered the salt. -/
theorem HashPasswordWithSaltLength_success {password secretKey : List Byte} {saltLength : Int}
    {rd : Rand.Reader} (h : (HashPasswordWithSaltLength password secretKey saltLength rd).1.2 = none) :
    password ≠ [] ∧ secretKey ≠ [] ∧ 16 ≤ saltLength ∧
      ∃ salt, (rd.Read saltLength.toNat).1 = .ok salt := by
  unfold HashPasswordWithSaltLength validateInputs at h
  by_cases hp : password = []
  · simp [hp] at h
  · by_cases hk : secretKey = []
    · simp [hp, hk] at h
    · by_cases hn : saltLength < 16
      · simp [hp, hk, hn] at h
      · refine ⟨hp, hk, not_lt.mp hn, ?_⟩
        rcases hread : rd.Read saltLength.toNat with ⟨res, rd1⟩
        cases res with
        | error e => simp [hp, hk, hn, hread] at h
        | ok salt => exact ⟨salt, rfl⟩

/-- An error of `HashPasswordWithSaltLength` always comes with the empty string. -/
theorem HashPasswordWithSaltLength_error_nil (password secretKey : List Byte) (saltLength : Int)
    (rd : Rand.Reader)
    (h : (HashPasswordWithSaltLength password secretKey saltLength rd).1.2 ≠ none) :
    (HashPasswordWithSaltLength password secretKey saltLength rd).1.1 = [] := by
  unfold HashPasswordWithSaltLength at h ⊢
  cases hv : validateInputs password secretKey with
  | some err => rfl
  | none =>
    simp only [hv] at h ⊢
    by_cases hn : saltLength < 16
    · simp [hn]
    · simp only [if_neg hn] at h ⊢
      rcases hread : rd.Read saltLength.toNat with ⟨res, rd1⟩
      cases res with
      | error e => rfl
      | ok salt =>
        rw [hread] at h
        simp at h

/-- The record `hmac_sha256$S$D` is no result of `HashPasswordWithSaltLength` when `S`
decodes to fewer than 16 bytes. -/
theorem HashPasswordWithSaltLength_ne_short {S D salt : List Byte} (hS : Separator ∉ S)
    (hD : Separator ∉ D) (hdec : Base64.URLEncoding.DecodeString S = .ok salt)
    (hlen : salt.length < 16) (p k : List Byte) (n : Int) (rd : Rand.Reader) :
    (HashPasswordWithSaltLength p k n rd).1.1 ≠
      AlgorithmIdentifier ++ [Separator] ++ S ++ [Separator] ++ D := by
  intro h
  by_cases herr : (HashPasswordWithSaltLength p k n rd).1.2 = none
  · obtain ⟨hp, hk, hn, s2, hr⟩ := HashPasswordWithSaltLength_success herr
    rw [HashPasswordWithSaltLength_ok hp hk hn hr] at h
    have hsplit := congrArg (fun r => Split r Separator) h
    simp only [Split_record Separator_not_mem_AlgorithmIdentifier
      (Base64.dollar_not_mem_URLEncoding _) (Base64.dollar_not_mem_URLEncoding _),
      Split_record Separator_not_mem_AlgorithmIdentifier hS hD] at hsplit
    simp only [List.cons.injEq, true_and] at hsplit
    have hS2 := hsplit.1
    rw [← hS2, Base64.DecodeString_EncodeToString Base64.URLEncoding_valid] at hdec
    have hs : s2 = salt := Except.ok.inj hdec
    have hl := Read_length hr
    rw [hs] at hl
    omega
  · rw [HashPasswordWithSaltLength_error_nil p k n rd herr] at h
    have := congrArg List.length h
    simp at this
    omega

end A3

/-! ## The a2 variant -/

namespace A2

theorem a2_separator_not_mem_algorithm : separator ∉ algorithm := by decide

theorem a2_computeHMAC_eq (password secretKey salt : List Byte) :
    computeHMAC password secretKey salt = HMAC.mac secretKey (password ++ salt) := by
  simp [computeHMAC, HMAC.State.Sum, HMAC.State.Write, HMAC.New, HMAC.mac]

/-- What a2's `HashPassword` returns when the inputs are not empty and the source delivers
`salt`. -/
theorem a2_HashPassword_ok {password secretKey : List Byte} {rd : Rand.Reader} {salt : List Byte}
    (hp : password ≠ []) (hk : secretKey ≠ []) (hr : (rd.Read 32).1 = .ok salt) :
    (HashPassword password secretKey rd).1 =
      (algorithm ++ [separator] ++ Base64.RawStdEncoding.EncodeToString salt ++ [separator] ++
        Base64.RawStdEncoding.EncodeToString (HMAC.mac secretKey (password ++ salt)), none) := by
  unfold HashPassword
  rw [if_neg hp, if_neg hk]
  have hsz : saltSize = 32 := rfl
  rw [hsz]
  rcases hread : rd.Read 32 with ⟨res, rd1⟩
  rw [hread] at hr
  simp only at hr
  subst hr
  simp [a2_computeHMAC_eq]

/-- The result of a2's `VerifyPassword` on a record `hmac_sha256$S$D` whose fields hold no
`$`. -/
theorem a2_VerifyPassword_record {password secretKey S D : List Byte} (hp : password ≠ [])
    (hk : secretKey ≠ []) (hS : separator ∉ S) (hD : separator ∉ D) :
    VerifyPassword password (algorithm ++ [separator] ++ S ++ [separator] ++ D) secretKey =
      match Base64.RawStdEncoding.DecodeString S with
      | .error off => (false, some (.failedToDecodeSalt (.corruptInput off)))
      | .ok salt =>
          (decide (Base64.RawStdEncoding.EncodeToString (HMAC.mac secretKey (password ++ salt)) = D),
            none) := by
  have hne : algorithm ++ [separator] ++ S ++ [separator] ++ D ≠ [] := by
    simp [algorithm, ascii]
  have hsplit : Split (algorithm ++ [separator] ++ S ++ [separator] ++ D) separator =
      [algorithm, S, D] := by
    have e : algorithm ++ [separator] ++ S ++ [separator] ++ D =
        algorithm ++ separator :: (S ++ separator :: D) := by simp
    rw [e, Split_append_sep _ algorithm a2_separator_not_mem_algorithm, Split_append_sep _ S hS,
      Split_not_mem D hD]
  unfold VerifyPassword
  rw [if_neg hp, if_neg hne, if_neg hk]
  simp only [hsplit]
  simp only [List.length_cons, List.length_nil, List.getD_cons_zero, List.getD_cons_succ,
    HMAC.Equal, Subtle.ConstantTimeCompare_eq_one, a2_computeHMAC_eq]
  simp

end A2

/-! ## The Fisher-Yates loop of `GetRandomAnimals` -/

namespace RandomAnimals

/-- Writing the elements of two positions of a list to each other's position permutes it. -/
theorem set_set_perm {α : Type} [DecidableEq α] (s : List α) (i j : Nat) (hi : i < s.length)
    (hj : j < s.length) : ((s.set i s[j]).set j s[i]).Perm s := by
  rw [List.perm_iff_count]
  intro b
  have hj1 : j < (s.set i s[j]).length := by simpa using hj
  rw [List.count_set _ _ _ _ hj1, List.count_set _ _ _ _ hi]
  have hget : (s.set i s[j])[j] = s[j] := by
    by_cases hij : i = j
    · subst hij
      simp
    · simp [List.getElem_set, hij]
  rw [hget]
  have hpos : (if (s[i] == b) = true then 1 else 0) ≤ s.count b := by
    split
    · rename_i hb
      have hb2 : s[i] = b := by simpa using hb
      have : b ∈ s := hb2 ▸ List.getElem_mem hi
      exact List.count_pos_iff.mpr this
    · omega
  generalize (if (s[i] == b) = true then 1 else 0) = x at hpos ⊢
  generalize (if (s[j] == b) = true then 1 else 0) = y
  omega

/-- Swapping two positions of a slice permutes it. -/
theorem swap_perm (s : List (List Byte)) (i j : Nat) (hi : i < s.length) (hj : j < s.length) :
    (swap s i j).Perm s := by
  unfold swap
  rw [List.getD_eq_getElem _ _ hi, List.getD_eq_getElem _ _ hj]
  exact set_set_perm s i j hi hj

theorem length_swap (s : List (List Byte)) (i j : Nat) : (swap s i j).length = s.length := by
  simp [swap]

/-- The Fisher-Yates loop from index `i` down to 1 on a slice longer than `i`, with a source
that can deliver `i` values: it ends without error, the slice is a permutation of the one it
started with, and exactly `i` values were drawn. -/
theorem shuffleFrom_perm : ∀ (i : Nat) (s : List (List Byte)) (src : Rand.IntSource),
    i < s.length → i ≤ src.values.length →
    ∃ t, shuffleFrom i s src = (.ok t, ⟨src.values.drop i, src.draws + i⟩) ∧ t.Perm s
  | 0, s, src, _, _ => ⟨s, by simp [shuffleFrom], List.Perm.refl s⟩
  | i + 1, s, src, hi, hv => by
    rcases src with ⟨values, draws⟩
    cases values with
    | nil => simp at hv
    | cons v vs =>
      have hj : v % (i + 1 + 1) < s.length := by
        have : v % (i + 1 + 1) < i + 1 + 1 := Nat.mod_lt v (by omega)
        omega
      have hp := swap_perm s (i + 1) (v % (i + 1 + 1)) hi hj
      obtain ⟨t, ht, hpt⟩ := shuffleFrom_perm i (swap s (i + 1) (v % (i + 1 + 1)))
        ⟨vs, draws + 1⟩ (by rw [length_swap]; omega) (by simpa using hv)
      refine ⟨t, ?_, hpt.trans hp⟩
      rw [shuffleFrom]
      simp only [Rand.IntSource.Int]
      rw [ht]
      simp only [List.drop_succ_cons, Prod.mk.injEq, true_and, Rand.IntSource.mk.injEq]
      omega

end RandomAnimals

/-! ## The loop of `GeneratePasswordWithOptions` -/

namespace RandomPassword

/-- The loop of `GeneratePasswordWithOptions` with a source that can deliver a value for
every round: it ends without error, and the positions it ran over hold the characters of the
charset at the drawn indices. -/
theorem fillFrom_eq (charset : List Byte) : ∀ (rounds : Nat) (done todo : List Byte)
    (src : Rand.IntSource), rounds ≤ todo.length → rounds ≤ src.values.length →
    fillFrom charset rounds done.length (done ++ todo) src =
      (.ok (done ++ (src.values.take rounds).map (fun v => charset.getD (v % charset.length) 0)
          ++ todo.drop rounds),
        ⟨src.values.drop rounds, src.draws + rounds⟩)
  | 0, done, todo, src, _, _ => by simp [fillFrom]
  | rounds + 1, done, todo, src, ht, hv => by
    rcases src with ⟨values, draws⟩
    cases values with
    | nil => simp at hv
    | cons v vs =>
      cases todo with
      | nil => simp at ht
      | cons t todo =>
        rw [fillFrom]
        simp only [Rand.IntSource.Int]
        rw [A3.set_append_length]
        have h1 : done ++ charset.getD (v % charset.length) 0 :: todo =
            (done ++ [charset.getD (v % charset.length) 0]) ++ todo := by simp
        have h2 : done.length + 1 = (done ++ [charset.getD (v % charset.length) 0]).length := by
          simp
        rw [h1, h2, fillFrom_eq charset rounds _ todo ⟨vs, draws + 1⟩
          (by simpa using ht) (by simpa using hv)]
        simp only [List.take_succ_cons, List.map_cons, List.drop_succ_cons, List.append_assoc,
          List.singleton_append, Prod.mk.injEq, true_and, Rand.IntSource.mk.injEq]
        omega

/-- The charset `GeneratePasswordWithOptions` builds from the four flags. -/
theorem charset_ne_nil {useUpper useLower useNumbers useSpecial : Bool}
    (h : useUpper = true ∨ useLower = true ∨ useNumbers = true ∨ useSpecial = true) :
    (if useUpper then upperChars else []) ++ (if useLower then lowerChars else []) ++
      (if useNumbers then numberChars else []) ++ (if useSpecial then specialChars else []) ≠ [] := by
  revert h
  cases useUpper <;> cases useLower <;> cases useNumbers <;> cases useSpecial <;> decide

/-- What `GeneratePasswordWithOptions` returns for a positive length, at least one character
set and a source that delivers a value for every position: the characters of the charset at
the drawn indices. -/
theorem GeneratePasswordWithOptions_ok (length : Int)
    (useUpper useLower useNumbers useSpecial : Bool) (src : Rand.IntSource) (hlen : 1 ≤ length)
    (hflag : useUpper = true ∨ useLower = true ∨ useNumbers = true ∨ useSpecial = true)
    (hsrc : length.toNat ≤ src.values.length) :
    GeneratePasswordWithOptions length useUpper useLower useNumbers useSpecial src =
      (((src.values.take length.toNat).map (fun v =>
          ((if useUpper then upperChars else []) ++ (if useLower then lowerChars else []) ++
            (if useNumbers then numberChars else []) ++
            (if useSpecial then specialChars else [])).getD
            (v % ((if useUpper then upperChars else []) ++ (if useLower then lowerChars else []) ++
              (if useNumbers then numberChars else []) ++
              (if useSpecial then specialChars else [])).length) 0), none),
        ⟨src.values.drop length.toNat, src.draws + length.toNat⟩) := by
  unfold GeneratePasswordWithOptions
  rw [if_neg (by omega)]
  simp only [if_neg (charset_ne_nil hflag)]
  have h := fillFrom_eq
    ((if useUpper then upperChars else []) ++ (if useLower then lowerChars else []) ++
      (if useNumbers then numberChars else []) ++ (if useSpecial then specialChars else []))
    length.toNat [] (List.replicate length.toNat 0) src (by simp) hsrc
  simp only [List.nil_append, List.length_nil] at h
  rw [h]
  simp

/-- A character read from a non-empty charset at an index brought into range is one of
its characters. -/
theorem getD_mod_mem (charset : List Byte) (h : charset ≠ []) (v : Nat) :
    charset.getD (v % charset.length) 0 ∈ charset := by
  have hpos : 0 < charset.length := List.length_pos.mpr h
  rw [List.getD_eq_getElem _ _ (Nat.mod_lt v hpos)]
  exact List.getElem_mem _

set_option maxRecDepth 100000 in
/-- The four character sets are pairwise disjoint. -/
theorem charsets_disjoint (c : Byte) :
    ¬ (c ∈ upperChars ∧ c ∈ lowerChars) ∧ ¬ (c ∈ upperChars ∧ c ∈ numberChars) ∧
    ¬ (c ∈ upperChars ∧ c ∈ specialChars) ∧ ¬ (c ∈ lowerChars ∧ c ∈ numberChars) ∧
    ¬ (c ∈ lowerChars ∧ c ∈ specialChars) ∧ ¬ (c ∈ numberChars ∧ c ∈ specialChars) := by
  revert c
  decide

end RandomPassword

/-! ## The loop of `Factorial` -/

namespace X1

theorem wrap64_of_range (x : Int) (h0 : -9223372036854775808 ≤ x) (h1 : x ≤ 9223372036854775807) :
    wrap64 x = x := by
  unfold wrap64
  omega

theorem wrap64_range (x : Int) :
    -9223372036854775808 ≤ wrap64 x ∧ wrap64 x ≤ 9223372036854775807 := by
  unfold wrap64
  omega

/-- Wrapping a factor before a multiplication does not change the wrapped product. -/
theorem wrap64_mul_wrap64 (a b : Int) : wrap64 (wrap64 a * b) = wrap64 (a * b) := by
  have h : ∃ k : Int, wrap64 a = a + k * 18446744073709551616 := by
    refine ⟨-((a + 9223372036854775808) / 18446744073709551616), ?_⟩
    unfold wrap64
    omega
  obtain ⟨k, hk⟩ := h
  rw [hk]
  unfold wrap64
  have e : (a + k * 18446744073709551616) * b + 9223372036854775808 =
      (a * b + 9223372036854775808) + 18446744073709551616 * (k * b) := by ring
  rw [e, Int.add_mul_emod_self_left]

/-- The loop of `Factorial` for `m` below the largest `int`, entered at the index `i` with
the wrapped factorial of `i - 1`: with fuel for the tests left it ends with the wrapped
factorial of `m`. -/
theorem factorialLoop_eq (m : Nat) (hm : (m : Int) < MaxInt64) :
    ∀ (d i extra : Nat), i + d = m + 1 → 1 ≤ i →
      factorialLoop m (d + 1 + extra) (wrap64 ((i - 1).factorial : Nat)) i =
        some (wrap64 (m.factorial : Nat))
  | 0, i, extra, hid, hi => by
    have him : i = m + 1 := by omega
    subst him
    rw [show 0 + 1 + extra = extra + 1 by omega, factorialLoop]
    rw [if_neg (by push_cast; omega)]
    simp
  | d + 1, i, extra, hid, hi => by
    rw [show d + 1 + 1 + extra = (d + 1 + extra) + 1 by omega, factorialLoop]
    have hle : (i : Int) ≤ (m : Int) := by
      have : i ≤ m := by omega
      exact_mod_cast this
    rw [if_pos hle]
    have hfac : wrap64 (wrap64 (((i - 1).factorial : Nat) : Int) * (i : Int)) =
        wrap64 (((i + 1 - 1).factorial : Nat) : Int) := by
      rw [wrap64_mul_wrap64]
      congr 1
      obtain ⟨j, rfl⟩ : ∃ j, i = j + 1 := ⟨i - 1, by omega⟩
      simp only [Nat.add_sub_cancel, Nat.factorial_succ]
      push_cast
      ring
    have hnext : wrap64 ((i : Int) + 1) = ((i + 1 : Nat) : Int) := by
      rw [wrap64_of_range]
      · push_cast
        rfl
      · omega
      · unfold MaxInt64 at hm
        omega
    rw [hfac, hnext]
    exact factorialLoop_eq m hm d (i + 1) extra (by omega) (by omega)

/-- The result of `Factorial` for `n` from 0 to below the largest `int`, given fuel for the
`n + 1` tests of the loop condition: no error and the factorial of `n` wrapped to 64 bits. -/
theorem Factorial_eq_wrap (n : Int) (fuel : Nat) (h0 : 0 ≤ n) (hn : n < MaxInt64)
    (hfuel : n.toNat + 1 ≤ fuel) :
    Factorial fuel n = some (wrap64 (n.toNat.factorial : Nat), none) := by
  obtain ⟨m, rfl⟩ : ∃ m : Nat, n = m := ⟨n.toNat, by omega⟩
  simp only [Int.toNat_ofNat] at hfuel ⊢
  unfold Factorial
  rw [if_neg (by omega)]
  by_cases hz : (m : Int) = 0
  · have : m = 0 := by exact_mod_cast hz
    subst this
    simp [wrap64]
  · rw [if_neg hz]
    obtain ⟨extra, rfl⟩ : ∃ extra, fuel = m + 1 + extra := ⟨fuel - (m + 1), by omega⟩
    have h := factorialLoop_eq m hn m 1 extra (by omega) (by omega)
    have h1 : wrap64 (((1 - 1 : Nat).factorial : Nat) : Int) = 1 := by decide
    rw [h1] at h
    have h2 : ((1 : Nat) : Int) = 1 := rfl
    rw [h2] at h
    rw [h]
    rfl

/-- The loop of `Factorial` for the largest `int` never ends: every machine integer passes
the test `i <= n`, and the increment wraps around. -/
theorem factorialLoop_max_none : ∀ (fuel : Nat) (result i : Int),
    i ≤ 9223372036854775807 → factorialLoop 9223372036854775807 fuel result i = none
  | 0, _, _, _ => rfl
  | fuel + 1, result, i, hi => by
    rw [factorialLoop, if_pos hi]
    exact factorialLoop_max_none fuel _ _ (wrap64_range _).2

theorem factorial_le_20 (m : Nat) (h : m ≤ 20) : (m.factorial : Int) ≤ 2432902008176640000 := by
  have h1 : m.factorial ≤ Nat.factorial 20 := Nat.factorial_le h
  have h2 : Nat.factorial 20 = 2432902008176640000 := by decide
  rw [h2] at h1
  exact_mod_cast h1

/-- The wrapped factorial is not the factorial from 21 on, and is 0 from 66 on. -/
theorem wrap64_factorial_large (m : Nat) :
    (21 ≤ m → wrap64 (m.factorial : Nat) ≠ (m.factorial : Nat)) ∧
    (66 ≤ m → wrap64 (m.factorial : Nat) = 0) := by
  constructor
  · intro h hw
    have h1 : Nat.factorial 21 ≤ m.factorial := Nat.factorial_le h
    have h2 : Nat.factorial 21 = 51090942171709440000 := by decide
    rw [h2] at h1
    have h3 : (51090942171709440000 : Int) ≤ (m.factorial : Nat) := by exact_mod_cast h1
    have h4 := (wrap64_range ((m.factorial : Nat) : Int)).2
    rw [hw] at h4
    omega
  · intro h
    have h1 : Nat.factorial 66 ∣ m.factorial := Nat.factorial_dvd_factorial h
    have h2 : 18446744073709551616 ∣ Nat.factorial 66 := by decide
    obtain ⟨k, hk⟩ := Nat.dvd_trans h2 h1
    rw [hk]
    unfold wrap64
    push_cast
    omega

end X1

/-! ## The claims -/

namespace A3

/-- C1 (round trip, a3): for a non-empty password, a non-empty secret key, a salt length of
at least 16 and a salt delivered by the random source, `HashPasswordWithSaltLength` returns a
record without error and `VerifyPassword` of the same password and key on that record
returns `(true, nil)`. -/
theorem C1_round_trip (password secretKey : List Byte) (saltLength : Int) (rd : Rand.Reader)
    (salt : List Byte) (hp : password ≠ []) (hk : secretKey ≠ []) (hn : 16 ≤ saltLength)
    (hr : (rd.Read saltLength.toNat).1 = .ok salt) :
    (HashPasswordWithSaltLength password secretKey saltLength rd).1.2 = none ∧
    VerifyPassword password (HashPasswordWithSaltLength password secretKey saltLength rd).1.1
      secretKey = (true, none) := by
  rw [HashPasswordWithSaltLength_ok hp hk hn hr]
  refine ⟨rfl, ?_⟩
  simp only []
  rw [VerifyPassword_hashed salt hp hk, if_pos rfl]

theorem C1_round_trip_witness :
    ascii "pw" ≠ [] ∧ ascii "k" ≠ [] ∧ (16 : Int) ≤ 16 ∧
    ((Rand.Reader.mk (List.replicate 16 7) 0).Read (16 : Int).toNat).1 = .ok (List.replicate 16 7) ∧
    (HashPasswordWithSaltLength (ascii "pw") (ascii "k") 16 ⟨List.replicate 16 7, 0⟩).1.2 = none ∧
    VerifyPassword (ascii "pw")
      (HashPasswordWithSaltLength (ascii "pw") (ascii "k") 16 ⟨List.replicate 16 7, 0⟩).1.1
      (ascii "k") = (true, none) :=
  ⟨by decide, by decide, by decide, rfl,
    C1_round_trip (ascii "pw") (ascii "k") 16 ⟨List.replicate 16 7, 0⟩ (List.replicate 16 7)
      (by decide) (by decide) (by decide) rfl⟩

/-- C2, as stated, fails: in the record for a salt of sixteen zero bytes the salt field is
`AAAAAAAAAAAAAAAAAAAAAA==`; replacing its 22nd symbol `A` (index 33 of the record) by `B`
changes only bits the decoder drops, and `VerifyPassword` still returns `(true, nil)`. -/
theorem C2_counterexample :
    (HashPasswordWithSaltLength (ascii "pw") (ascii "k") 16 ⟨List.replicate 16 0, 0⟩).1.2 = none ∧
    ((HashPasswordWithSaltLength (ascii "pw") (ascii "k") 16 ⟨List.replicate 16 0, 0⟩).1.1).take 37 =
      ascii "hmac_sha256$AAAAAAAAAAAAAAAAAAAAAA==$" ∧
    (((HashPasswordWithSaltLength (ascii "pw") (ascii "k") 16 ⟨List.replicate 16 0, 0⟩).1.1).set
        33 66).take 37 = ascii "hmac_sha256$AAAAAAAAAAAAAAAAAAAAAB==$" ∧
    VerifyPassword (ascii "pw")
      (((HashPasswordWithSaltLength (ascii "pw") (ascii "k") 16 ⟨List.replicate 16 0, 0⟩).1.1).set
        33 66) (ascii "k") = (true, none) := by
  have hr : ((Rand.Reader.mk (List.replicate 16 0) 0).Read (16 : Int).toNat).1 =
      .ok (List.replicate 16 0) := rfl
  have hrec := @HashPasswordWithSaltLength_ok (ascii "pw") (ascii "k") 16
    ⟨List.replicate 16 0, 0⟩ (List.replicate 16 0) (by decide) (by decide) (by decide) hr
  have hsalt : Base64.URLEncoding.EncodeToString (List.replicate 16 0) =
      ascii "AAAAAAAAAAAAAAAAAAAAAA==" := by decide
  have e1 : AlgorithmIdentifier ++ [Separator] ++ ascii "AAAAAAAAAAAAAAAAAAAAAA==" ++ [Separator] =
      ascii "hmac_sha256$AAAAAAAAAAAAAAAAAAAAAA==$" := by decide
  have e2 : AlgorithmIdentifier ++ [Separator] ++ ascii "AAAAAAAAAAAAAAAAAAAAAB==" ++ [Separator] =
      ascii "hmac_sha256$AAAAAAAAAAAAAAAAAAAAAB==$" := by decide
  have hset : ∀ t : List Byte,
      (ascii "hmac_sha256$AAAAAAAAAAAAAAAAAAAAAA==$" ++ t).set 33 66 =
        ascii "hmac_sha256$AAAAAAAAAAAAAAAAAAAAAB==$" ++ t := by
    intro t
    have h3 : ascii "hmac_sha256$AAAAAAAAAAAAAAAAAAAAAA==$" =
        ascii "hmac_sha256$AAAAAAAAAAAAAAAAAAAAA" ++ 65 :: ascii "==$" := by decide
    have h4 : ascii "hmac_sha256$AAAAAAAAAAAAAAAAAAAAAB==$" =
        ascii "hmac_sha256$AAAAAAAAAAAAAAAAAAAAA" ++ 66 :: ascii "==$" := by decide
    have h5 : (ascii "hmac_sha256$AAAAAAAAAAAAAAAAAAAAA").length = 33 := by decide
    rw [h3, h4, List.append_assoc, List.append_assoc, ← h5]
    exact set_append_length _ _ _ _
  have hfst : (HashPasswordWithSaltLength (ascii "pw") (ascii "k") 16
      ⟨List.replicate 16 0, 0⟩).1.1 = ascii "hmac_sha256$AAAAAAAAAAAAAAAAAAAAAA==$" ++
        Base64.URLEncoding.EncodeToString
          (HMAC.mac (ascii "k") (ascii "pw" ++ List.replicate 16 0)) := by
    rw [hrec, hsalt, e1]
  rw [hfst, hset]
  refine ⟨by rw [hrec], ?_, ?_, ?_⟩
  · rw [List.take_left']
    decide
  · rw [List.take_left']
    decide
  · rw [← e2]
    have := (@VerifyPassword_true_iff (ascii "pw") (ascii "k")
      (ascii "AAAAAAAAAAAAAAAAAAAAAB==")
      (Base64.URLEncoding.EncodeToString (HMAC.mac (ascii "k") (ascii "pw" ++ List.replicate 16 0)))
      (by decide) (by decide)).mpr
      ⟨List.replicate 16 0, rfl, Base64.DecodeString_EncodeToString Base64.URLEncoding_valid _⟩
    have hnone := mt (VerifyPassword_error_false (ascii "pw") _ (ascii "k")) (by rw [this]; simp)
    exact Prod.ext this (not_not.mp hnone)

/-- C2 (tamper detection, a3), amended: for the record of valid inputs and a delivered salt,
which is `hmac_sha256$` base64url(salt) `$` base64url(digest), and any byte `b` written at any
position `j` of the salt field or of the digest field: `VerifyPassword` returns `true` for a
changed salt field exactly when that field still decodes, to a salt whose HMAC-SHA256 digest
with the password is the stored digest, and for a changed digest field exactly when that
field still decodes to the stored digest; and whenever it returns an error it returns
`false`. -/
theorem C2_tamper_detection (password secretKey salt : List Byte) (saltLength : Int)
    (rd : Rand.Reader) (j : Nat) (b : Byte) (hp : password ≠ []) (hk : secretKey ≠ [])
    (hn : 16 ≤ saltLength) (hr : (rd.Read saltLength.toNat).1 = .ok salt) :
    (HashPasswordWithSaltLength password secretKey saltLength rd).1.1 =
      ascii "hmac_sha256$" ++ Base64.URLEncoding.EncodeToString salt ++ ascii "$" ++
        Base64.URLEncoding.EncodeToString (HMAC.mac secretKey (password ++ salt)) ∧
    ((VerifyPassword password
        (ascii "hmac_sha256$" ++ (Base64.URLEncoding.EncodeToString salt).set j b ++ ascii "$" ++
          Base64.URLEncoding.EncodeToString (HMAC.mac secretKey (password ++ salt)))
        secretKey).1 = true ↔
      ∃ salt2, Base64.URLEncoding.DecodeString ((Base64.URLEncoding.EncodeToString salt).set j b) =
          .ok salt2 ∧
        HMAC.mac secretKey (password ++ salt2) = HMAC.mac secretKey (password ++ salt)) ∧
    ((VerifyPassword password
        (ascii "hmac_sha256$" ++ Base64.URLEncoding.EncodeToString salt ++ ascii "$" ++
          (Base64.URLEncoding.EncodeToString (HMAC.mac secretKey (password ++ salt))).set j b)
        secretKey).1 = true ↔
      Base64.URLEncoding.DecodeString
          ((Base64.URLEncoding.EncodeToString (HMAC.mac secretKey (password ++ salt))).set j b) =
        .ok (HMAC.mac secretKey (password ++ salt))) ∧
    (∀ r2, (VerifyPassword password r2 secretKey).2 ≠ none →
      (VerifyPassword password r2 secretKey).1 = false) := by
  have hA : ascii "hmac_sha256$" = AlgorithmIdentifier ++ [Separator] := by decide
  have hS : ascii "$" = [Separator] := by decide
  have hdec := Base64.DecodeString_EncodeToString Base64.URLEncoding_valid
  rw [hA, hS]
  refine ⟨?_, ?_, ?_, fun r2 => VerifyPassword_error_false password r2 secretKey⟩
  · rw [HashPasswordWithSaltLength_ok hp hk hn hr]
  · rw [VerifyPassword_true_iff _ _ hp hk]
    simp only [hdec, Except.ok.injEq]
    constructor
    · rintro ⟨salt2, h1, h2⟩
      exact ⟨salt2, h1, h2.symm⟩
    · rintro ⟨salt2, h1, h2⟩
      exact ⟨salt2, h1, h2.symm⟩
  · rw [VerifyPassword_true_iff _ _ hp hk]
    simp only [hdec, Except.ok.injEq]
    constructor
    · rintro ⟨salt2, h1, h2⟩
      subst h1
      exact h2
    · intro h
      exact ⟨salt, rfl, h⟩

theorem C2_tamper_detection_witness :
    ascii "pw" ≠ [] ∧ ascii "k" ≠ [] ∧ (16 : Int) ≤ 16 ∧
    ((Rand.Reader.mk (List.replicate 16 0) 0).Read (16 : Int).toNat).1 = .ok (List.replicate 16 0) ∧
    (HashPasswordWithSaltLength (ascii "pw") (ascii "k") 16 ⟨List.replicate 16 0, 0⟩).1.1 =
      ascii "hmac_sha256$" ++ Base64.URLEncoding.EncodeToString (List.replicate 16 0) ++ ascii "$" ++
        Base64.URLEncoding.EncodeToString (HMAC.mac (ascii "k") (ascii "pw" ++ List.replicate 16 0)) ∧
    ((VerifyPassword (ascii "pw")
        (ascii "hmac_sha256$" ++ (Base64.URLEncoding.EncodeToString (List.replicate 16 0)).set 21 66 ++
          ascii "$" ++ Base64.URLEncoding.EncodeToString
            (HMAC.mac (ascii "k") (ascii "pw" ++ List.replicate 16 0)))
        (ascii "k")).1 = true ↔
      ∃ salt2, Base64.URLEncoding.DecodeString
          ((Base64.URLEncoding.EncodeToString (List.replicate 16 0)).set 21 66) = .ok salt2 ∧
        HMAC.mac (ascii "k") (ascii "pw" ++ salt2) =
          HMAC.mac (ascii "k") (ascii "pw" ++ List.replicate 16 0)) ∧
    ((VerifyPassword (ascii "pw")
        (ascii "hmac_sha256$" ++ Base64.URLEncoding.EncodeToString (List.replicate 16 0) ++ ascii "$" ++
          (Base64.URLEncoding.EncodeToString
            (HMAC.mac (ascii "k") (ascii "pw" ++ List.replicate 16 0))).set 21 66)
        (ascii "k")).1 = true ↔
      Base64.URLEncoding.DecodeString
          ((Base64.URLEncoding.EncodeToString
            (HMAC.mac (ascii "k") (ascii "pw" ++ List.replicate 16 0))).set 21 66) =
        .ok (HMAC.mac (ascii "k") (ascii "pw" ++ List.replicate 16 0))) ∧
    (∀ r2, (VerifyPassword (ascii "pw") r2 (ascii "k")).2 ≠ none →
      (VerifyPassword (ascii "pw") r2 (ascii "k")).1 = false) :=
  ⟨by decide, by decide, by decide, rfl,
    C2_tamper_detection (ascii "pw") (ascii "k") (List.replicate 16 0) 16 ⟨List.replicate 16 0, 0⟩
      21 66 (by decide) (by decide) (by decide) rfl⟩

/-- C3, as stated, fails: the keys `a` and `a` followed by a zero byte are different non-empty
byte strings, HMAC pads both to the same 64-byte block, and so the record hashed under the
first key verifies under the second. -/
theorem C3_counterexample :
    ascii "pw" ≠ [] ∧ ([97] : List Byte) ≠ [] ∧ ([97, 0] : List Byte) ≠ [] ∧
    ([97] : List Byte) ≠ [97, 0] ∧
    (HashPassword (ascii "pw") [97] ⟨List.replicate 32 0, 0⟩).1.2 = none ∧
    VerifyPassword (ascii "pw") (HashPassword (ascii "pw") [97] ⟨List.replicate 32 0, 0⟩).1.1
      [97, 0] = (true, none) := by
  have hr : ((Rand.Reader.mk (List.replicate 32 0) 0).Read DefaultSaltLength.toNat).1 =
      .ok (List.replicate 32 0) := rfl
  have hb : HMAC.blockKey [97, 0] = HMAC.blockKey [97] := by decide
  refine ⟨by decide, by decide, by decide, by decide, ?_, ?_⟩
  · rw [HashPassword, HashPasswordWithSaltLength_ok (by decide) (by decide) (by decide) hr]
  · rw [HashPassword, VerifyPassword_HashPasswordWithSaltLength (by decide) (by decide)
      (by decide) (by decide) (by decide) hr, if_pos]
    simp only [HMAC.mac, hb]

/-- C3 (wrong key, a3), amended: for a non-empty password, two non-empty keys and a salt
delivered to `HashPassword`, `VerifyPassword` under the second key on the record hashed under
the first returns no error, and returns `false` exactly when the HMAC-SHA256 digests of
password and salt under the two keys differ. -/
theorem C3_wrong_key (password key1 key2 salt : List Byte) (rd : Rand.Reader)
    (hp : password ≠ []) (hk1 : key1 ≠ []) (hk2 : key2 ≠ []) (_ : key1 ≠ key2)
    (hr : (rd.Read DefaultSaltLength.toNat).1 = .ok salt) :
    (VerifyPassword password (HashPassword password key1 rd).1.1 key2).2 = none ∧
    ((VerifyPassword password (HashPassword password key1 rd).1.1 key2).1 = false ↔
      HMAC.mac key2 (password ++ salt) ≠ HMAC.mac key1 (password ++ salt)) := by
  rw [HashPassword, VerifyPassword_HashPasswordWithSaltLength hp hk1 hp hk2 (by decide) hr]
  by_cases h : HMAC.mac key2 (password ++ salt) = HMAC.mac key1 (password ++ salt)
  · simp [h]
  · simp [h]

theorem C3_wrong_key_witness :
    ascii "pw" ≠ [] ∧ ([97] : List Byte) ≠ [] ∧ ([97, 0] : List Byte) ≠ [] ∧
    ([97] : List Byte) ≠ [97, 0] ∧
    ((Rand.Reader.mk (List.replicate 32 0) 0).Read DefaultSaltLength.toNat).1 =
      .ok (List.replicate 32 0) ∧
    (VerifyPassword (ascii "pw") (HashPassword (ascii "pw") [97] ⟨List.replicate 32 0, 0⟩).1.1
      [97, 0]).2 = none ∧
    ((VerifyPassword (ascii "pw") (HashPassword (ascii "pw") [97] ⟨List.replicate 32 0, 0⟩).1.1
      [97, 0]).1 = false ↔
      HMAC.mac [97, 0] (ascii "pw" ++ List.replicate 32 0) ≠
        HMAC.mac [97] (ascii "pw" ++ List.replicate 32 0)) :=
  ⟨by decide, by decide, by decide, by decide, rfl,
    C3_wrong_key (ascii "pw") [97] [97, 0] (List.replicate 32 0) ⟨List.replicate 32 0, 0⟩
      (by decide) (by decide) (by decide) (by decide) rfl⟩

/-- C5 (record format, a3): for valid inputs and a salt delivered by the random source, the
record returned by `HashPasswordWithSaltLength` splits on `$` into exactly three parts, the
first part is `hmac_sha256`, and parts two and three are accepted by the URL-safe base64
decoder and decode to exactly `saltLength` bytes and exactly 32 bytes. -/
theorem C5_record_format (password secretKey : List Byte) (saltLength : Int) (rd : Rand.Reader)
    (salt : List Byte) (hp : password ≠ []) (hk : secretKey ≠ []) (hn : 16 ≤ saltLength)
    (hr : (rd.Read saltLength.toNat).1 = .ok salt) :
    ∃ saltB64 hashB64 s d,
      Split (HashPasswordWithSaltLength password secretKey saltLength rd).1.1 36 =
        [ascii "hmac_sha256", saltB64, hashB64] ∧
      Base64.URLEncoding.DecodeString saltB64 = .ok s ∧ (s.length : Int) = saltLength ∧
      Base64.URLEncoding.DecodeString hashB64 = .ok d ∧ d.length = 32 := by
  refine ⟨Base64.URLEncoding.EncodeToString salt,
    Base64.URLEncoding.EncodeToString (HMAC.mac secretKey (password ++ salt)), salt,
    HMAC.mac secretKey (password ++ salt), ?_, ?_, ?_, ?_, ?_⟩
  · rw [HashPasswordWithSaltLength_ok hp hk hn hr]
    exact Split_record Separator_not_mem_AlgorithmIdentifier
      (Base64.dollar_not_mem_URLEncoding _) (Base64.dollar_not_mem_URLEncoding _)
  · exact Base64.DecodeString_EncodeToString Base64.URLEncoding_valid _
  · rw [Read_length hr]
    omega
  · exact Base64.DecodeString_EncodeToString Base64.URLEncoding_valid _
  · exact HMAC.length_mac _ _

theorem C5_record_format_witness :
    ascii "pw" ≠ [] ∧ ascii "k" ≠ [] ∧ (16 : Int) ≤ 17 ∧
    ((Rand.Reader.mk (List.replicate 40 9) 0).Read (17 : Int).toNat).1 = .ok (List.replicate 17 9) ∧
    ∃ saltB64 hashB64 s d,
      Split (HashPasswordWithSaltLength (ascii "pw") (ascii "k") 17
        ⟨List.replicate 40 9, 0⟩).1.1 36 = [ascii "hmac_sha256", saltB64, hashB64] ∧
      Base64.URLEncoding.DecodeString saltB64 = .ok s ∧ (s.length : Int) = 17 ∧
      Base64.URLEncoding.DecodeString hashB64 = .ok d ∧ d.length = 32 :=
  ⟨by decide, by decide, by decide, rfl,
    C5_record_format (ascii "pw") (ascii "k") 17 ⟨List.replicate 40 9, 0⟩ (List.replicate 17 9)
      (by decide) (by decide) (by decide) rfl⟩

/-- C6 (hash output, a3): for valid inputs and a salt `s` delivered by the random source,
`HashPasswordWithSaltLength` returns, without error, exactly
`hmac_sha256` `$` base64url(`s`) `$` base64url(HMAC-SHA256(key = secretKey, message =
password bytes followed at once by the salt bytes)). -/
theorem C6_hash_output (password secretKey : List Byte) (saltLength : Int) (rd : Rand.Reader)
    (s : List Byte) (hp : password ≠ []) (hk : secretKey ≠ []) (hn : 16 ≤ saltLength)
    (hr : (rd.Read saltLength.toNat).1 = .ok s) :
    (HashPasswordWithSaltLength password secretKey saltLength rd).1 =
      (ascii "hmac_sha256" ++ ascii "$" ++ Base64.URLEncoding.EncodeToString s ++ ascii "$" ++
        Base64.URLEncoding.EncodeToString (HMAC.mac secretKey (password ++ s)), none) :=
  HashPasswordWithSaltLength_ok hp hk hn hr

theorem C6_hash_output_witness :
    ascii "correct" ≠ [] ∧ ascii "key" ≠ [] ∧ (16 : Int) ≤ 32 ∧
    ((Rand.Reader.mk (List.replicate 32 1) 0).Read (32 : Int).toNat).1 = .ok (List.replicate 32 1) ∧
    (HashPasswordWithSaltLength (ascii "correct") (ascii "key") 32 ⟨List.replicate 32 1, 0⟩).1 =
      (ascii "hmac_sha256" ++ ascii "$" ++ Base64.URLEncoding.EncodeToString (List.replicate 32 1)
        ++ ascii "$" ++ Base64.URLEncoding.EncodeToString
          (HMAC.mac (ascii "key") (ascii "correct" ++ List.replicate 32 1)), none) :=
  ⟨by decide, by decide, by decide, rfl,
    C6_hash_output (ascii "correct") (ascii "key") 32 ⟨List.replicate 32 1, 0⟩ (List.replicate 32 1)
      (by decide) (by decide) (by decide) rfl⟩

/-- C7 (exact match, a3): for a non-empty password and key and a record
`hmac_sha256$S$D` whose fields `S` and `D` hold no `$` and are accepted by the URL-safe
base64 decoder, `VerifyPassword` returns no error, and returns `true` if and only if the
decoded `D` equals HMAC-SHA256(secretKey, password bytes followed by the decoded `S`), byte for
byte; in particular a decoded digest of another length than 32 gives `false`. -/
theorem C7_match_exact (password secretKey S D salt digest : List Byte) (hp : password ≠ [])
    (hk : secretKey ≠ []) (hS : (36 : Byte) ∉ S) (hD : (36 : Byte) ∉ D)
    (hs : Base64.URLEncoding.DecodeString S = .ok salt)
    (hd : Base64.URLEncoding.DecodeString D = .ok digest) :
    (VerifyPassword password (ascii "hmac_sha256$" ++ S ++ ascii "$" ++ D) secretKey).2 = none ∧
    ((VerifyPassword password (ascii "hmac_sha256$" ++ S ++ ascii "$" ++ D) secretKey).1 = true ↔
      digest = HMAC.mac secretKey (password ++ salt)) ∧
    (digest.length ≠ 32 →
      (VerifyPassword password (ascii "hmac_sha256$" ++ S ++ ascii "$" ++ D) secretKey).1 = false) := by
  have e : ascii "hmac_sha256$" ++ S ++ ascii "$" ++ D =
      AlgorithmIdentifier ++ [Separator] ++ S ++ [Separator] ++ D := by
    have : ascii "hmac_sha256$" = AlgorithmIdentifier ++ [Separator] := by decide
    rw [this]
    rfl
  rw [e, VerifyPassword_record hp hk hS hD, hs, hd]
  simp only []
  by_cases h : HMAC.mac secretKey (password ++ salt) = digest
  · rw [if_pos h]
    refine ⟨rfl, ⟨fun _ => h.symm, fun _ => rfl⟩, ?_⟩
    intro hl
    exact absurd (h ▸ HMAC.length_mac _ _) hl
  · rw [if_neg h]
    refine ⟨rfl, ⟨fun hf => ?_, fun hf => absurd hf.symm h⟩, fun _ => rfl⟩
    simp at hf

theorem C7_match_exact_witness :
    ascii "pw" ≠ [] ∧ ascii "k" ≠ [] ∧ (36 : Byte) ∉ ascii "AAEC" ∧ (36 : Byte) ∉ ascii "_w==" ∧
    Base64.URLEncoding.DecodeString (ascii "AAEC") = .ok [0, 1, 2] ∧
    Base64.URLEncoding.DecodeString (ascii "_w==") = .ok [255] ∧
    (VerifyPassword (ascii "pw") (ascii "hmac_sha256$" ++ ascii "AAEC" ++ ascii "$" ++ ascii "_w==")
      (ascii "k")).2 = none ∧
    ((VerifyPassword (ascii "pw") (ascii "hmac_sha256$" ++ ascii "AAEC" ++ ascii "$" ++ ascii "_w==")
      (ascii "k")).1 = true ↔ [255] = HMAC.mac (ascii "k") (ascii "pw" ++ [0, 1, 2])) ∧
    (([255] : List Byte).length ≠ 32 →
      (VerifyPassword (ascii "pw") (ascii "hmac_sha256$" ++ ascii "AAEC" ++ ascii "$" ++ ascii "_w==")
        (ascii "k")).1 = false) :=
  ⟨by decide, by decide, by decide, by decide, rfl, rfl,
    C7_match_exact (ascii "pw") (ascii "k") (ascii "AAEC") (ascii "_w==") [0, 1, 2] [255]
      (by decide) (by decide) (by decide) (by decide) rfl rfl⟩

/-- C8 (format rejection, a3): for a non-empty password and key and any record,
`VerifyPassword` returns `ErrInvalidHash` exactly when the record does not hold exactly two
`$` (byte 36), and returns `ErrInvalidAlgorithm` exactly when it holds exactly two `$` and
its first field is not `hmac_sha256`; the fields after the first play no part, so a record of
another algorithm with undecodable fields yields `ErrInvalidAlgorithm`. -/
theorem C8_format_rejection (password hash secretKey : List Byte) (hp : password ≠ [])
    (hk : secretKey ≠ []) :
    ((VerifyPassword password hash secretKey).2 = some .ErrInvalidHash ↔ hash.count 36 ≠ 2) ∧
    ((VerifyPassword password hash secretKey).2 = some .ErrInvalidAlgorithm ↔
      hash.count 36 = 2 ∧ hash.takeWhile (fun c => c ≠ 36) ≠ ascii "hmac_sha256") := by
  have hA : ascii "hmac_sha256" = AlgorithmIdentifier := rfl
  have hS : (36 : Byte) = Separator := rfl
  rw [hA, hS]
  rcases VerifyPassword_error_cases hash hp hk with ⟨h1, h2⟩ | ⟨h1, h2, h3⟩ | ⟨h1, h2, h3⟩
  · rw [h2]
    simp [h1]
  · rw [h3]
    simp only [ne_eq, decide_not] at h2
    simp [h1, h2]
  · simp only [ne_eq, decide_not] at h2
    rcases h3 with ⟨off, h3⟩ | ⟨off, h3⟩ | ⟨b, h3⟩ <;> rw [h3] <;> simp [h1, h2]

theorem C8_format_rejection_witness :
    ascii "password" ≠ [] ∧ ascii "secret" ≠ [] ∧
    ((VerifyPassword (ascii "password") (ascii "bcrypt$salt$ha!sh") (ascii "secret")).2 =
        some .ErrInvalidHash ↔ (ascii "bcrypt$salt$ha!sh").count 36 ≠ 2) ∧
    ((VerifyPassword (ascii "password") (ascii "bcrypt$salt$ha!sh") (ascii "secret")).2 =
        some .ErrInvalidAlgorithm ↔
      (ascii "bcrypt$salt$ha!sh").count 36 = 2 ∧
        (ascii "bcrypt$salt$ha!sh").takeWhile (fun c => c ≠ 36) ≠ ascii "hmac_sha256") :=
  ⟨by decide, by decide,
    C8_format_rejection (ascii "password") (ascii "bcrypt$salt$ha!sh") (ascii "secret")
      (by decide) (by decide)⟩

/-- C9 (salt-length boundary, a3): for a non-empty password and key and a random source that
does not fail on the request, `HashPasswordWithSaltLength` returns an error if and only if
the salt length is below 16. -/
theorem C9_salt_length_boundary (password secretKey : List Byte) (n : Int) (rd : Rand.Reader)
    (hp : password ≠ []) (hk : secretKey ≠ [])
    (hr : ∃ salt, (rd.Read n.toNat).1 = .ok salt) :
    (HashPasswordWithSaltLength password secretKey n rd).1.2 ≠ none ↔ n < 16 := by
  obtain ⟨salt, hr⟩ := hr
  by_cases hn : n < 16
  · simp [HashPasswordWithSaltLength, validateInputs_ok hp hk, hn]
  · rw [HashPasswordWithSaltLength_ok hp hk (not_lt.mp hn) hr]
    simp [hn]

theorem C9_salt_length_boundary_witness :
    ascii "pw" ≠ [] ∧ ascii "k" ≠ [] ∧
    (∃ salt, ((Rand.Reader.mk (List.replicate 64 5) 0).Read (15 : Int).toNat).1 = .ok salt) ∧
    ((HashPasswordWithSaltLength (ascii "pw") (ascii "k") 15 ⟨List.replicate 64 5, 0⟩).1.2 ≠ none
      ↔ (15 : Int) < 16) :=
  ⟨by decide, by decide, ⟨_, rfl⟩,
    C9_salt_length_boundary (ascii "pw") (ascii "k") 15 ⟨List.replicate 64 5, 0⟩
      (by decide) (by decide) ⟨_, rfl⟩⟩

/-- C10 (empty inputs, a3): with an empty password `HashPassword`,
`HashPasswordWithSaltLength` and `VerifyPassword` return `ErrEmptyPassword` whatever the
other arguments are; with a non-empty password and an empty key they return
`ErrEmptySecretKey`; and `VerifyPassword` with non-empty password and key and an empty record
returns `ErrInvalidHash`. -/
theorem C10_empty_inputs (password secretKey hash : List Byte) (n : Int) (rd : Rand.Reader)
    (hp : password ≠ []) (hk : secretKey ≠ []) :
    (HashPassword [] secretKey rd).1.2 = some .ErrEmptyPassword ∧
    (HashPassword [] [] rd).1.2 = some .ErrEmptyPassword ∧
    (HashPasswordWithSaltLength [] secretKey n rd).1.2 = some .ErrEmptyPassword ∧
    (HashPasswordWithSaltLength [] [] n rd).1.2 = some .ErrEmptyPassword ∧
    (VerifyPassword [] hash secretKey).2 = some .ErrEmptyPassword ∧
    (VerifyPassword [] hash []).2 = some .ErrEmptyPassword ∧
    (HashPassword password [] rd).1.2 = some .ErrEmptySecretKey ∧
    (HashPasswordWithSaltLength password [] n rd).1.2 = some .ErrEmptySecretKey ∧
    (VerifyPassword password hash []).2 = some .ErrEmptySecretKey ∧
    (VerifyPassword password [] secretKey).2 = some .ErrInvalidHash := by
  simp [HashPassword, HashPasswordWithSaltLength, VerifyPassword, validateInputs, hp, hk]

theorem C10_empty_inputs_witness :
    ascii "validPassword" ≠ [] ∧ ascii "valid-secret-key" ≠ [] ∧
    (HashPassword [] (ascii "valid-secret-key") ⟨[], 0⟩).1.2 = some .ErrEmptyPassword ∧
    (HashPassword [] [] ⟨[], 0⟩).1.2 = some .ErrEmptyPassword ∧
    (HashPasswordWithSaltLength [] (ascii "valid-secret-key") 8 ⟨[], 0⟩).1.2 =
      some .ErrEmptyPassword ∧
    (HashPasswordWithSaltLength [] [] 8 ⟨[], 0⟩).1.2 = some .ErrEmptyPassword ∧
    (VerifyPassword [] [] (ascii "valid-secret-key")).2 = some .ErrEmptyPassword ∧
    (VerifyPassword [] [] []).2 = some .ErrEmptyPassword ∧
    (HashPassword (ascii "validPassword") [] ⟨[], 0⟩).1.2 = some .ErrEmptySecretKey ∧
    (HashPasswordWithSaltLength (ascii "validPassword") [] 8 ⟨[], 0⟩).1.2 =
      some .ErrEmptySecretKey ∧
    (VerifyPassword (ascii "validPassword") [] []).2 = some .ErrEmptySecretKey ∧
    (VerifyPassword (ascii "validPassword") [] (ascii "valid-secret-key")).2 =
      some .ErrInvalidHash :=
  ⟨by decide, by decide,
    C10_empty_inputs (ascii "validPassword") (ascii "valid-secret-key") [] 8 ⟨[], 0⟩
      (by decide) (by decide)⟩

/-- C11 (decode errors, a3): a record with exactly two `$` whose first field is `hmac_sha256`
is `hmac_sha256$S$D` with no `$` in `S` and `D`, and for a non-empty password and key
`VerifyPassword` returns an error on it exactly when the URL-safe padded base64 decoder
rejects `S` or rejects `D`; an error comes with `false`; a rejected `S` gives the
salt-decode error whatever `D` is, and a rejected `D` after an accepted `S` gives the
hash-decode error. -/
theorem C11_decode_errors (password hash secretKey : List Byte) (hp : password ≠ [])
    (hk : secretKey ≠ []) (hc : hash.count 36 = 2)
    (ha : hash.takeWhile (fun c => c ≠ 36) = ascii "hmac_sha256") :
    ∃ S D, hash = ascii "hmac_sha256$" ++ S ++ ascii "$" ++ D ∧ (36 : Byte) ∉ S ∧ (36 : Byte) ∉ D ∧
      ((VerifyPassword password hash secretKey).2 ≠ none ↔
        (∃ off, Base64.URLEncoding.DecodeString S = .error off) ∨
        (∃ off, Base64.URLEncoding.DecodeString D = .error off)) ∧
      ((VerifyPassword password hash secretKey).2 ≠ none →
        (VerifyPassword password hash secretKey).1 = false) ∧
      (∀ off, Base64.URLEncoding.DecodeString S = .error off →
        (VerifyPassword password hash secretKey).2 =
          some (.failedToDecodeSalt (.corruptInput off))) ∧
      (∀ salt off, Base64.URLEncoding.DecodeString S = .ok salt →
        Base64.URLEncoding.DecodeString D = .error off →
        (VerifyPassword password hash secretKey).2 =
          some (.failedToDecodeHash (.corruptInput off))) := by
  obtain ⟨S, D, e, hS, hD⟩ := exists_three_fields 36 hash hc
  rw [ha] at e
  have e2 : hash = AlgorithmIdentifier ++ [Separator] ++ S ++ [Separator] ++ D := e
  have hA : ascii "hmac_sha256$" = AlgorithmIdentifier ++ [Separator] := by decide
  have hsep : ascii "$" = [Separator] := by decide
  refine ⟨S, D, by rw [hA, hsep]; exact e2, hS, hD, ?_, VerifyPassword_error_false _ _ _, ?_, ?_⟩
  · rw [e2, VerifyPassword_record hp hk hS hD]
    cases hs : Base64.URLEncoding.DecodeString S with
    | error off => simp
    | ok salt =>
      cases hd : Base64.URLEncoding.DecodeString D with
      | error off => simp
      | ok digest =>
        by_cases hm : HMAC.mac secretKey (password ++ salt) = digest <;> simp [hm]
  · intro off hs
    rw [e2, VerifyPassword_record hp hk hS hD, hs]
  · intro salt off hs hd
    rw [e2, VerifyPassword_record hp hk hS hD, hs, hd]

theorem C11_decode_errors_witness :
    ascii "pw" ≠ [] ∧ ascii "k" ≠ [] ∧ (ascii "hmac_sha256$!$?").count 36 = 2 ∧
    (ascii "hmac_sha256$!$?").takeWhile (fun c => c ≠ 36) = ascii "hmac_sha256" ∧
    ∃ S D, ascii "hmac_sha256$!$?" = ascii "hmac_sha256$" ++ S ++ ascii "$" ++ D ∧
      (36 : Byte) ∉ S ∧ (36 : Byte) ∉ D ∧
      ((VerifyPassword (ascii "pw") (ascii "hmac_sha256$!$?") (ascii "k")).2 ≠ none ↔
        (∃ off, Base64.URLEncoding.DecodeString S = .error off) ∨
        (∃ off, Base64.URLEncoding.DecodeString D = .error off)) ∧
      ((VerifyPassword (ascii "pw") (ascii "hmac_sha256$!$?") (ascii "k")).2 ≠ none →
        (VerifyPassword (ascii "pw") (ascii "hmac_sha256$!$?") (ascii "k")).1 = false) ∧
      (∀ off, Base64.URLEncoding.DecodeString S = .error off →
        (VerifyPassword (ascii "pw") (ascii "hmac_sha256$!$?") (ascii "k")).2 =
          some (.failedToDecodeSalt (.corruptInput off))) ∧
      (∀ salt off, Base64.URLEncoding.DecodeString S = .ok salt →
        Base64.URLEncoding.DecodeString D = .error off →
        (VerifyPassword (ascii "pw") (ascii "hmac_sha256$!$?") (ascii "k")).2 =
          some (.failedToDecodeHash (.corruptInput off))) :=
  ⟨by decide, by decide, by decide, by decide,
    C11_decode_errors (ascii "pw") (ascii "hmac_sha256$!$?") (ascii "k") (by decide) (by decide)
      (by decide) (by decide)⟩

/-- C12 (validation precedes randomness, a3): when the password is empty, the key is empty or
the salt length is below 16, `HashPasswordWithSaltLength` returns the empty string with the
validation error (empty password first, then empty key, then salt length), the result is the
same for every random source, and the source is handed back untouched: no read, no byte
consumed. -/
theorem C12_validation_first (password secretKey : List Byte) (saltLength : Int)
    (rd rd2 : Rand.Reader) (h : password = [] ∨ secretKey = [] ∨ saltLength < 16) :
    (HashPasswordWithSaltLength password secretKey saltLength rd).1 =
      ([], some (if password = [] then Error.ErrEmptyPassword
        else if secretKey = [] then Error.ErrEmptySecretKey else Error.saltLengthTooSmall)) ∧
    (HashPasswordWithSaltLength password secretKey saltLength rd).1 =
      (HashPasswordWithSaltLength password secretKey saltLength rd2).1 ∧
    (HashPasswordWithSaltLength password secretKey saltLength rd).2 = rd := by
  unfold HashPasswordWithSaltLength validateInputs
  by_cases hp : password = []
  · simp [hp]
  · by_cases hk : secretKey = []
    · simp [hp, hk]
    · have hn : saltLength < 16 := by
        rcases h with h | h | h
        · exact absurd h hp
        · exact absurd h hk
        · exact h
      simp [hp, hk, hn]

theorem C12_validation_first_witness :
    (ascii "pw" = [] ∨ ascii "k" = [] ∨ (15 : Int) < 16) ∧
    (HashPasswordWithSaltLength (ascii "pw") (ascii "k") 15 ⟨List.replicate 40 1, 0⟩).1 =
      ([], some (if ascii "pw" = [] then Error.ErrEmptyPassword
        else if ascii "k" = [] then Error.ErrEmptySecretKey else Error.saltLengthTooSmall)) ∧
    (HashPasswordWithSaltLength (ascii "pw") (ascii "k") 15 ⟨List.replicate 40 1, 0⟩).1 =
      (HashPasswordWithSaltLength (ascii "pw") (ascii "k") 15 ⟨[], 7⟩).1 ∧
    (HashPasswordWithSaltLength (ascii "pw") (ascii "k") 15 ⟨List.replicate 40 1, 0⟩).2 =
      ⟨List.replicate 40 1, 0⟩ :=
  ⟨by decide,
    C12_validation_first (ascii "pw") (ascii "k") 15 ⟨List.replicate 40 1, 0⟩ ⟨[], 7⟩ (by decide)⟩

/-- C13 (randomness failure, a3): for a non-empty password and key and a salt length of at
least 16, when the read of the random source reports the error `e`,
`HashPasswordWithSaltLength` returns the empty string with the error that wraps `e`, and the
source comes back as that one read left it: exactly one read was made. -/
theorem C13_random_failure (password secretKey : List Byte) (saltLength : Int)
    (rd : Rand.Reader) (e : Error) (hp : password ≠ []) (hk : secretKey ≠ [])
    (hn : 16 ≤ saltLength) (hr : (rd.Read saltLength.toNat).1 = .error e) :
    (HashPasswordWithSaltLength password secretKey saltLength rd).1 =
      ([], some (.failedToGenerateSalt e)) ∧
    (HashPasswordWithSaltLength password secretKey saltLength rd).2 =
      (rd.Read saltLength.toNat).2 ∧
    (HashPasswordWithSaltLength password secretKey saltLength rd).2.reads = rd.reads + 1 := by
  have hreads : (rd.Read saltLength.toNat).2.reads = rd.reads + 1 := by
    unfold Rand.Reader.Read
    split <;> rfl
  unfold HashPasswordWithSaltLength
  rw [validateInputs_ok hp hk]
  simp only [if_neg (not_lt.mpr hn)]
  rcases hread : rd.Read saltLength.toNat with ⟨res, rd1⟩
  rw [hread] at hr hreads
  simp only at hr hreads
  subst hr
  exact ⟨rfl, rfl, hreads⟩

theorem C13_random_failure_witness :
    ascii "pw" ≠ [] ∧ ascii "k" ≠ [] ∧ (16 : Int) ≤ 32 ∧
    ((Rand.Reader.mk (List.replicate 31 1) 4).Read (32 : Int).toNat).1 = .error .randomSource ∧
    (HashPasswordWithSaltLength (ascii "pw") (ascii "k") 32 ⟨List.replicate 31 1, 4⟩).1 =
      ([], some (.failedToGenerateSalt .randomSource)) ∧
    (HashPasswordWithSaltLength (ascii "pw") (ascii "k") 32 ⟨List.replicate 31 1, 4⟩).2 =
      ((Rand.Reader.mk (List.replicate 31 1) 4).Read (32 : Int).toNat).2 ∧
    (HashPasswordWithSaltLength (ascii "pw") (ascii "k") 32 ⟨List.replicate 31 1, 4⟩).2.reads =
      4 + 1 :=
  ⟨by decide, by decide, by decide, rfl,
    C13_random_failure (ascii "pw") (ascii "k") 32 ⟨List.replicate 31 1, 4⟩ .randomSource
      (by decide) (by decide) (by decide) rfl⟩

/-- C14 (different salts, different records, a3): for a non-empty password and key and a salt
length of at least 16, two calls of `HashPasswordWithSaltLength` to which the random source
delivers different salts return different records. -/
theorem C14_salt_injective (password secretKey : List Byte) (saltLength : Int)
    (rd1 rd2 : Rand.Reader) (s1 s2 : List Byte) (hp : password ≠ []) (hk : secretKey ≠ [])
    (hn : 16 ≤ saltLength) (h1 : (rd1.Read saltLength.toNat).1 = .ok s1)
    (h2 : (rd2.Read saltLength.toNat).1 = .ok s2) (hne : s1 ≠ s2) :
    (HashPasswordWithSaltLength password secretKey saltLength rd1).1.1 ≠
      (HashPasswordWithSaltLength password secretKey saltLength rd2).1.1 := by
  rw [HashPasswordWithSaltLength_ok hp hk hn h1, HashPasswordWithSaltLength_ok hp hk hn h2]
  intro h
  have hsplit := congrArg (fun r => Split r Separator) h
  simp only [Split_record Separator_not_mem_AlgorithmIdentifier
    (Base64.dollar_not_mem_URLEncoding _) (Base64.dollar_not_mem_URLEncoding _)] at hsplit
  have henc : Base64.URLEncoding.EncodeToString s1 = Base64.URLEncoding.EncodeToString s2 := by
    simp only [List.cons.injEq, true_and] at hsplit
    exact hsplit.1
  exact hne (Base64.EncodeToString_injective Base64.URLEncoding_valid henc)

theorem C14_salt_injective_witness :
    ascii "pw" ≠ [] ∧ ascii "k" ≠ [] ∧ (16 : Int) ≤ 16 ∧
    ((Rand.Reader.mk (List.replicate 16 1) 0).Read (16 : Int).toNat).1 = .ok (List.replicate 16 1) ∧
    ((Rand.Reader.mk (List.replicate 16 2) 0).Read (16 : Int).toNat).1 = .ok (List.replicate 16 2) ∧
    (List.replicate 16 1 : List Byte) ≠ List.replicate 16 2 ∧
    (HashPasswordWithSaltLength (ascii "pw") (ascii "k") 16 ⟨List.replicate 16 1, 0⟩).1.1 ≠
      (HashPasswordWithSaltLength (ascii "pw") (ascii "k") 16 ⟨List.replicate 16 2, 0⟩).1.1 :=
  ⟨by decide, by decide, by decide, rfl, rfl, by decide,
    C14_salt_injective (ascii "pw") (ascii "k") 16 ⟨List.replicate 16 1, 0⟩
      ⟨List.replicate 16 2, 0⟩ (List.replicate 16 1) (List.replicate 16 2)
      (by decide) (by decide) (by decide) rfl rfl (by decide)⟩

/-- C15 (no partial results, a3): for all inputs, an error of `HashPasswordWithSaltLength`
comes with the empty string, an error of `VerifyPassword` comes with `false`, and
`VerifyPassword` never returns `true` together with an error. -/
theorem C15_no_partial_results (password secretKey hash : List Byte) (saltLength : Int)
    (rd : Rand.Reader) :
    ((HashPasswordWithSaltLength password secretKey saltLength rd).1.2 ≠ none →
      (HashPasswordWithSaltLength password secretKey saltLength rd).1.1 = []) ∧
    ((VerifyPassword password hash secretKey).2 ≠ none →
      (VerifyPassword password hash secretKey).1 = false) ∧
    ¬ ((VerifyPassword password hash secretKey).1 = true ∧
      (VerifyPassword password hash secretKey).2 ≠ none) := by
  refine ⟨HashPasswordWithSaltLength_error_nil _ _ _ _, VerifyPassword_error_false _ _ _, ?_⟩
  rintro ⟨h1, h2⟩
  rw [VerifyPassword_error_false _ _ _ h2] at h1
  exact Bool.noConfusion h1

theorem C15_no_partial_results_witness :
    (HashPasswordWithSaltLength (ascii "pw") (ascii "k") 64 ⟨List.replicate 63 0, 0⟩).1.2 ≠ none ∧
    (VerifyPassword (ascii "pw") (ascii "hmac_sha256$AAAA$AAA") (ascii "k")).2 ≠ none ∧
    (HashPasswordWithSaltLength (ascii "pw") (ascii "k") 64 ⟨List.replicate 63 0, 0⟩).1.1 = [] ∧
    (VerifyPassword (ascii "pw") (ascii "hmac_sha256$AAAA$AAA") (ascii "k")).1 = false :=
  ⟨by decide, by decide,
    (C15_no_partial_results (ascii "pw") (ascii "k") (ascii "hmac_sha256$AAAA$AAA") 64
      ⟨List.replicate 63 0, 0⟩).1 (by decide),
    (C15_no_partial_results (ascii "pw") (ascii "k") (ascii "hmac_sha256$AAAA$AAA") 64
      ⟨List.replicate 63 0, 0⟩).2.1 (by decide)⟩

/-- C16 (default salt length, a3): for all inputs and every random source `HashPassword`
returns what `HashPasswordWithSaltLength` returns for the salt length 32; so when it returns
no error the record splits into `hmac_sha256`, a salt field and a digest field, and the salt
field decodes to exactly 32 bytes. -/
theorem C16_default_salt_length (password secretKey : List Byte) (rd : Rand.Reader) :
    HashPassword password secretKey rd = HashPasswordWithSaltLength password secretKey 32 rd ∧
    ((HashPassword password secretKey rd).1.2 = none →
      ∃ saltB64 hashB64 s,
        Split (HashPassword password secretKey rd).1.1 36 =
          [ascii "hmac_sha256", saltB64, hashB64] ∧
        Base64.URLEncoding.DecodeString saltB64 = .ok s ∧ s.length = 32) := by
  refine ⟨rfl, fun h => ?_⟩
  obtain ⟨hp, hk, hn, salt, hr⟩ := HashPasswordWithSaltLength_success h
  refine ⟨Base64.URLEncoding.EncodeToString salt,
    Base64.URLEncoding.EncodeToString (HMAC.mac secretKey (password ++ salt)), salt, ?_, ?_, ?_⟩
  · rw [HashPassword, HashPasswordWithSaltLength_ok hp hk hn hr]
    exact Split_record Separator_not_mem_AlgorithmIdentifier
      (Base64.dollar_not_mem_URLEncoding _) (Base64.dollar_not_mem_URLEncoding _)
  · exact Base64.DecodeString_EncodeToString Base64.URLEncoding_valid _
  · exact Read_length hr

theorem C16_default_salt_length_witness :
    (HashPassword (ascii "pw") (ascii "k") ⟨List.replicate 50 8, 0⟩).1.2 = none ∧
    HashPassword (ascii "pw") (ascii "k") ⟨List.replicate 50 8, 0⟩ =
      HashPasswordWithSaltLength (ascii "pw") (ascii "k") 32 ⟨List.replicate 50 8, 0⟩ ∧
    ∃ saltB64 hashB64 s,
      Split (HashPassword (ascii "pw") (ascii "k") ⟨List.replicate 50 8, 0⟩).1.1 36 =
        [ascii "hmac_sha256", saltB64, hashB64] ∧
      Base64.URLEncoding.DecodeString saltB64 = .ok s ∧ s.length = 32 :=
  ⟨rfl, (C16_default_salt_length (ascii "pw") (ascii "k") ⟨List.replicate 50 8, 0⟩).1,
    (C16_default_salt_length (ascii "pw") (ascii "k") ⟨List.replicate 50 8, 0⟩).2 rfl⟩

/-- C17 (`GetAlgorithmInfo`): the mapping has exactly the six keys `algorithm`,
`hash_function`, `hmac`, `default_salt_length`, `hash_format` and `encoding`, each once, with
the values `hmac_sha256`, `SHA-256`, `true`, `32`, `algorithm$salt$hash` and `base64url`; the
value of `algorithm` is the first field of every record `HashPassword` returns, and the value
of `default_salt_length` is the salt length with which `HashPassword` calls
`HashPasswordWithSaltLength`. -/
theorem C17_algorithm_info (password secretKey : List Byte) (rd : Rand.Reader)
    (h : (HashPassword password secretKey rd).1.2 = none) :
    (GetAlgorithmInfo.map Prod.fst).Nodup ∧
    (∀ k, k ∈ GetAlgorithmInfo.map Prod.fst ↔
      k ∈ [ascii "algorithm", ascii "hash_function", ascii "hmac", ascii "default_salt_length",
        ascii "hash_format", ascii "encoding"]) ∧
    GetAlgorithmInfo.lookup (ascii "algorithm") = some (.str (ascii "hmac_sha256")) ∧
    GetAlgorithmInfo.lookup (ascii "hash_function") = some (.str (ascii "SHA-256")) ∧
    GetAlgorithmInfo.lookup (ascii "hmac") = some (.bool true) ∧
    GetAlgorithmInfo.lookup (ascii "default_salt_length") = some (.int 32) ∧
    GetAlgorithmInfo.lookup (ascii "hash_format") = some (.str (ascii "algorithm$salt$hash")) ∧
    GetAlgorithmInfo.lookup (ascii "encoding") = some (.str (ascii "base64url")) ∧
    GetAlgorithmInfo.lookup (ascii "algorithm") =
      some (.str ((Split (HashPassword password secretKey rd).1.1 36).getD 0 [])) ∧
    (∀ n, GetAlgorithmInfo.lookup (ascii "default_salt_length") = some (.int n) →
      HashPassword password secretKey rd = HashPasswordWithSaltLength password secretKey n rd) := by
  obtain ⟨hp, hk, hn, salt, hr⟩ := HashPasswordWithSaltLength_success h
  have hkeys : GetAlgorithmInfo.map Prod.fst =
      [ascii "algorithm", ascii "hash_function", ascii "hmac", ascii "default_salt_length",
        ascii "hash_format", ascii "encoding"] := rfl
  have hlen : GetAlgorithmInfo.lookup (ascii "default_salt_length") = some (.int 32) := by decide
  refine ⟨by decide, fun k => by rw [hkeys], by decide, by decide, by decide, hlen, by decide,
    by decide, ?_, ?_⟩
  · rw [HashPassword, HashPasswordWithSaltLength_ok hp hk hn hr]
    simp only []
    rw [show (36 : Byte) = Separator from rfl,
      Split_record Separator_not_mem_AlgorithmIdentifier
        (Base64.dollar_not_mem_URLEncoding _) (Base64.dollar_not_mem_URLEncoding _)]
    rfl
  · intro n hn2
    rw [hlen] at hn2
    simp only [Option.some.injEq, InfoValue.int.injEq] at hn2
    subst hn2
    rfl

theorem C17_algorithm_info_witness :
    (HashPassword (ascii "pw") (ascii "k") ⟨List.replicate 32 6, 0⟩).1.2 = none ∧
    (GetAlgorithmInfo.map Prod.fst).Nodup ∧
    (∀ k, k ∈ GetAlgorithmInfo.map Prod.fst ↔
      k ∈ [ascii "algorithm", ascii "hash_function", ascii "hmac", ascii "default_salt_length",
        ascii "hash_format", ascii "encoding"]) ∧
    GetAlgorithmInfo.lookup (ascii "algorithm") = some (.str (ascii "hmac_sha256")) ∧
    GetAlgorithmInfo.lookup (ascii "hash_function") = some (.str (ascii "SHA-256")) ∧
    GetAlgorithmInfo.lookup (ascii "hmac") = some (.bool true) ∧
    GetAlgorithmInfo.lookup (ascii "default_salt_length") = some (.int 32) ∧
    GetAlgorithmInfo.lookup (ascii "hash_format") = some (.str (ascii "algorithm$salt$hash")) ∧
    GetAlgorithmInfo.lookup (ascii "encoding") = some (.str (ascii "base64url")) ∧
    GetAlgorithmInfo.lookup (ascii "algorithm") =
      some (.str ((Split (HashPassword (ascii "pw") (ascii "k")
        ⟨List.replicate 32 6, 0⟩).1.1 36).getD 0 [])) ∧
    (∀ n, GetAlgorithmInfo.lookup (ascii "default_salt_length") = some (.int n) →
      HashPassword (ascii "pw") (ascii "k") ⟨List.replicate 32 6, 0⟩ =
        HashPasswordWithSaltLength (ascii "pw") (ascii "k") n ⟨List.replicate 32 6, 0⟩) :=
  ⟨rfl, C17_algorithm_info (ascii "pw") (ascii "k") ⟨List.replicate 32 6, 0⟩ rfl⟩

end A3

namespace A2

/-- C19 (round trip, a2): for a non-empty password and key and a 32-byte salt delivered by
the random source, a2's `HashPassword` returns a record without error, a2's `VerifyPassword`
of the same password and key on it returns `(true, nil)`, the salt field written with
unpadded standard base64 decodes back to the same 32 bytes, and the encoded text of the
recomputed digest is the digest field of the record. -/
theorem C19_round_trip_a2 (password secretKey salt : List Byte) (rd : Rand.Reader)
    (hp : password ≠ []) (hk : secretKey ≠ []) (hr : (rd.Read 32).1 = .ok salt) :
    (HashPassword password secretKey rd).1.2 = none ∧
    VerifyPassword password (HashPassword password secretKey rd).1.1 secretKey = (true, none) ∧
    ∃ saltB64 hashB64,
      Split (HashPassword password secretKey rd).1.1 36 =
        [ascii "hmac_sha256", saltB64, hashB64] ∧
      Base64.RawStdEncoding.DecodeString saltB64 = .ok salt ∧ salt.length = 32 ∧
      Base64.RawStdEncoding.EncodeToString (computeHMAC password secretKey salt) = hashB64 := by
  have hS : separator ∉ Base64.RawStdEncoding.EncodeToString salt :=
    Base64.dollar_not_mem_RawStdEncoding salt
  have hD : separator ∉
      Base64.RawStdEncoding.EncodeToString (HMAC.mac secretKey (password ++ salt)) :=
    Base64.dollar_not_mem_RawStdEncoding (HMAC.mac secretKey (password ++ salt))
  rw [a2_HashPassword_ok hp hk hr]
  refine ⟨rfl, ?_, Base64.RawStdEncoding.EncodeToString salt,
    Base64.RawStdEncoding.EncodeToString (HMAC.mac secretKey (password ++ salt)), ?_, ?_, ?_, ?_⟩
  · simp only []
    rw [a2_VerifyPassword_record hp hk hS hD,
      Base64.DecodeString_EncodeToString Base64.RawStdEncoding_valid]
    simp
  · have e : ∀ S D : List Byte, algorithm ++ [separator] ++ S ++ [separator] ++ D =
        algorithm ++ separator :: (S ++ separator :: D) := by
      intro S D
      simp
    simp only []
    rw [show (36 : Byte) = separator from rfl, e,
      Split_append_sep _ algorithm a2_separator_not_mem_algorithm, Split_append_sep _ _ hS,
      Split_not_mem _ hD]
    rfl
  · exact Base64.DecodeString_EncodeToString Base64.RawStdEncoding_valid _
  · exact A3.Read_length hr
  · rw [a2_computeHMAC_eq]

theorem C19_round_trip_a2_witness :
    ascii "mypassword123" ≠ [] ∧ ascii "my-super-secret-key" ≠ [] ∧
    ((Rand.Reader.mk (List.replicate 32 5) 0).Read 32).1 = .ok (List.replicate 32 5) ∧
    (HashPassword (ascii "mypassword123") (ascii "my-super-secret-key")
      ⟨List.replicate 32 5, 0⟩).1.2 = none ∧
    VerifyPassword (ascii "mypassword123")
      (HashPassword (ascii "mypassword123") (ascii "my-super-secret-key")
        ⟨List.replicate 32 5, 0⟩).1.1 (ascii "my-super-secret-key") = (true, none) ∧
    ∃ saltB64 hashB64,
      Split (HashPassword (ascii "mypassword123") (ascii "my-super-secret-key")
        ⟨List.replicate 32 5, 0⟩).1.1 36 = [ascii "hmac_sha256", saltB64, hashB64] ∧
      Base64.RawStdEncoding.DecodeString saltB64 = .ok (List.replicate 32 5) ∧
      (List.replicate 32 (5 : Byte)).length = 32 ∧
      Base64.RawStdEncoding.EncodeToString
        (computeHMAC (ascii "mypassword123") (ascii "my-super-secret-key")
          (List.replicate 32 5)) = hashB64 :=
  ⟨by decide, by decide, rfl,
    C19_round_trip_a2 (ascii "mypassword123") (ascii "my-super-secret-key") (List.replicate 32 5)
      ⟨List.replicate 32 5, 0⟩ (by decide) (by decide) rfl⟩

end A2

namespace RandomAnimals

/-- C20 (`GetRandomAnimals`): for a count from 1 to 10 and a random source that delivers the
nine draws of the loop, each draw brought into `[0, i]` for its index `i` from 9 down to 1,
`GetRandomAnimals` returns no error and the first `count` elements of a permutation of the
list of animals: exactly `count` elements, pairwise distinct, each one of the ten animals. -/
theorem C20_random_animals (count : Int) (src : Rand.IntSource) (h1 : 1 ≤ count)
    (h10 : count ≤ 10) (hsrc : 9 ≤ src.values.length) :
    (GetRandomAnimals count src).1.2 = none ∧
    ((GetRandomAnimals count src).1.1.length : Int) = count ∧
    (GetRandomAnimals count src).1.1.Nodup ∧
    (∀ a ∈ (GetRandomAnimals count src).1.1, a ∈ animals) ∧
    ∃ shuffled : List (List Byte), shuffled.Perm animals ∧
      (GetRandomAnimals count src).1.1 = shuffled.take count.toNat := by
  have hlen : animals.length = 10 := rfl
  obtain ⟨t, ht, hpt⟩ := shuffleFrom_perm (animals.length - 1) animals src (by rw [hlen]; omega)
    (by rw [hlen]; exact hsrc)
  have hres : (GetRandomAnimals count src).1 = (t.take count.toNat, none) := by
    unfold GetRandomAnimals
    rw [if_neg (by omega), if_neg (by rw [hlen]; omega), ht]
  have htl : t.length = 10 := by rw [hpt.length_eq, hlen]
  have hnd : t.Nodup := hpt.nodup_iff.mpr (by decide)
  rw [hres]
  refine ⟨rfl, ?_, ?_, ?_, t, hpt, rfl⟩
  · simp only [List.length_take, htl]
    omega
  · exact hnd.sublist (List.take_sublist _ _)
  · intro a ha
    exact hpt.subset (List.mem_of_mem_take ha)

theorem C20_random_animals_witness :
    (1 : Int) ≤ 5 ∧ (5 : Int) ≤ 10 ∧
    9 ≤ (Rand.IntSource.mk [3, 1, 4, 1, 5, 2, 2, 1, 0] 0).values.length ∧
    (GetRandomAnimals 5 ⟨[3, 1, 4, 1, 5, 2, 2, 1, 0], 0⟩).1.2 = none ∧
    ((GetRandomAnimals 5 ⟨[3, 1, 4, 1, 5, 2, 2, 1, 0], 0⟩).1.1.length : Int) = 5 ∧
    (GetRandomAnimals 5 ⟨[3, 1, 4, 1, 5, 2, 2, 1, 0], 0⟩).1.1.Nodup ∧
    (∀ a ∈ (GetRandomAnimals 5 ⟨[3, 1, 4, 1, 5, 2, 2, 1, 0], 0⟩).1.1, a ∈ animals) ∧
    ∃ shuffled : List (List Byte), shuffled.Perm animals ∧
      (GetRandomAnimals 5 ⟨[3, 1, 4, 1, 5, 2, 2, 1, 0], 0⟩).1.1 = shuffled.take (5 : Int).toNat :=
  ⟨by decide, by decide, by decide,
    C20_random_animals 5 ⟨[3, 1, 4, 1, 5, 2, 2, 1, 0], 0⟩ (by decide) (by decide) (by decide)⟩

/-- C21 (`GetRandomAnimals` argument check): with a random source that delivers the nine
draws, `GetRandomAnimals` returns an error exactly when the count is at most 0 or above 10,
and the error comes with the `nil` slice; for such a count the result is the same for every
source and the source is handed back untouched, so the check precedes every draw; and the
count 10 gives, without error, all ten animals. -/
theorem C21_argument_check (count : Int) (src : Rand.IntSource)
    (hsrc : 9 ≤ src.values.length) :
    ((GetRandomAnimals count src).1.2 ≠ none ↔ count ≤ 0 ∨ count > 10) ∧
    ((GetRandomAnimals count src).1.2 ≠ none → (GetRandomAnimals count src).1.1 = []) ∧
    (count ≤ 0 ∨ count > 10 → ∀ src2 : Rand.IntSource,
      (GetRandomAnimals count src2).1 = (GetRandomAnimals count src).1 ∧
      (GetRandomAnimals count src2).2 = src2) ∧
    (GetRandomAnimals 10 src).1.2 = none ∧
    (GetRandomAnimals 10 src).1.1.Perm animals := by
  have hlen : animals.length = 10 := rfl
  obtain ⟨t, ht, hpt⟩ := shuffleFrom_perm (animals.length - 1) animals src (by rw [hlen]; omega)
    (by rw [hlen]; exact hsrc)
  have htl : t.length = 10 := by rw [hpt.length_eq, hlen]
  have h10 : (GetRandomAnimals 10 src).1 = (t, none) := by
    unfold GetRandomAnimals
    rw [if_neg (by omega), if_neg (by rw [hlen]; omega), ht]
    simp only [Prod.mk.injEq, and_true]
    exact List.take_of_length_le (by rw [htl]; decide)
  refine ⟨?_, ?_, ?_, by rw [h10], by rw [h10]; exact hpt⟩
  · by_cases h0 : count ≤ 0
    · simp [GetRandomAnimals, h0]
    · by_cases h1 : count > 10
      · have h1b : count > (animals.length : Int) := by rw [hlen]; exact h1
        simp [GetRandomAnimals, h0, h1, h1b]
      · have h1b : ¬ count > (animals.length : Int) := by rw [hlen]; exact h1
        unfold GetRandomAnimals
        rw [if_neg h0, if_neg h1b, ht]
        simp [h0, h1]
  · intro herr
    by_cases h0 : count ≤ 0
    · simp [GetRandomAnimals, h0]
    · by_cases h1 : count > (animals.length : Int)
      · simp [GetRandomAnimals, h0, h1]
      · exfalso
        apply herr
        unfold GetRandomAnimals
        rw [if_neg h0, if_neg h1, ht]
  · intro hc src2
    by_cases h0 : count ≤ 0
    · simp [GetRandomAnimals, h0]
    · have h1 : count > (animals.length : Int) := by
        rw [hlen]
        rcases hc with hc | hc
        · exact absurd hc h0
        · exact hc
      simp [GetRandomAnimals, h0, h1]

theorem C21_argument_check_witness :
    9 ≤ (Rand.IntSource.mk [8, 7, 6, 5, 4, 3, 2, 1, 0] 0).values.length ∧
    ((GetRandomAnimals 11 ⟨[8, 7, 6, 5, 4, 3, 2, 1, 0], 0⟩).1.2 ≠ none ↔
      (11 : Int) ≤ 0 ∨ (11 : Int) > 10) ∧
    ((GetRandomAnimals 11 ⟨[8, 7, 6, 5, 4, 3, 2, 1, 0], 0⟩).1.2 ≠ none →
      (GetRandomAnimals 11 ⟨[8, 7, 6, 5, 4, 3, 2, 1, 0], 0⟩).1.1 = []) ∧
    ((11 : Int) ≤ 0 ∨ (11 : Int) > 10 → ∀ src2 : Rand.IntSource,
      (GetRandomAnimals 11 src2).1 = (GetRandomAnimals 11 ⟨[8, 7, 6, 5, 4, 3, 2, 1, 0], 0⟩).1 ∧
      (GetRandomAnimals 11 src2).2 = src2) ∧
    (GetRandomAnimals 10 ⟨[8, 7, 6, 5, 4, 3, 2, 1, 0], 0⟩).1.2 = none ∧
    (GetRandomAnimals 10 ⟨[8, 7, 6, 5, 4, 3, 2, 1, 0], 0⟩).1.1.Perm animals :=
  ⟨by decide, C21_argument_check 11 ⟨[8, 7, 6, 5, 4, 3, 2, 1, 0], 0⟩ (by decide)⟩

end RandomAnimals

namespace RandomPassword

/-- C22 (password shape): for a length of at least 1, at least one enabled character set and
a random source that delivers an index for every position, `GeneratePasswordWithOptions`
returns no error and exactly `length` bytes; every byte belongs to an enabled set and to no
disabled set; the four sets are pairwise disjoint; and `GeneratePasswordDefault` returns 30
bytes when the source delivers 30 indices. -/
theorem C22_password_shape (length : Int) (useUpper useLower useNumbers useSpecial : Bool)
    (src : Rand.IntSource) (hlen : 1 ≤ length)
    (hflag : useUpper = true ∨ useLower = true ∨ useNumbers = true ∨ useSpecial = true)
    (hsrc : length.toNat ≤ src.values.length) :
    (GeneratePasswordWithOptions length useUpper useLower useNumbers useSpecial src).1.2 = none ∧
    ((GeneratePasswordWithOptions length useUpper useLower useNumbers useSpecial src).1.1.length
      : Int) = length ∧
    (∀ c ∈ (GeneratePasswordWithOptions length useUpper useLower useNumbers useSpecial src).1.1,
      ((useUpper = true ∧ c ∈ upperChars) ∨ (useLower = true ∧ c ∈ lowerChars) ∨
        (useNumbers = true ∧ c ∈ numberChars) ∨ (useSpecial = true ∧ c ∈ specialChars)) ∧
      (useUpper = false → c ∉ upperChars) ∧ (useLower = false → c ∉ lowerChars) ∧
      (useNumbers = false → c ∉ numberChars) ∧ (useSpecial = false → c ∉ specialChars)) ∧
    (∀ c : Byte, ¬ (c ∈ upperChars ∧ c ∈ lowerChars) ∧ ¬ (c ∈ upperChars ∧ c ∈ numberChars) ∧
      ¬ (c ∈ upperChars ∧ c ∈ specialChars) ∧ ¬ (c ∈ lowerChars ∧ c ∈ numberChars) ∧
      ¬ (c ∈ lowerChars ∧ c ∈ specialChars) ∧ ¬ (c ∈ numberChars ∧ c ∈ specialChars)) ∧
    (30 ≤ src.values.length → (GeneratePasswordDefault src).1.2 = none ∧
      (GeneratePasswordDefault src).1.1.length = 30) := by
  rw [GeneratePasswordWithOptions_ok length useUpper useLower useNumbers useSpecial src hlen
    hflag hsrc]
  refine ⟨rfl, ?_, ?_, charsets_disjoint, ?_⟩
  · simp only [List.length_map, List.length_take]
    omega
  · intro c hc
    simp only [List.mem_map] at hc
    obtain ⟨v, _, hv⟩ := hc
    have hmem := getD_mod_mem _ (charset_ne_nil hflag) v
    rw [hv] at hmem
    have hdis := charsets_disjoint c
    simp only [List.mem_append] at hmem
    have hcases : (useUpper = true ∧ c ∈ upperChars) ∨ (useLower = true ∧ c ∈ lowerChars) ∨
        (useNumbers = true ∧ c ∈ numberChars) ∨ (useSpecial = true ∧ c ∈ specialChars) := by
      rcases hmem with ((h | h) | h) | h
      · cases useUpper
        · simp at h
        · exact Or.inl ⟨rfl, by simpa using h⟩
      · cases useLower
        · simp at h
        · exact Or.inr (Or.inl ⟨rfl, by simpa using h⟩)
      · cases useNumbers
        · simp at h
        · exact Or.inr (Or.inr (Or.inl ⟨rfl, by simpa using h⟩))
      · cases useSpecial
        · simp at h
        · exact Or.inr (Or.inr (Or.inr ⟨rfl, by simpa using h⟩))
    refine ⟨hcases, ?_, ?_, ?_, ?_⟩
    · intro hu hcu
      rcases hcases with h | h | h | h
      · rw [hu] at h
        exact Bool.noConfusion h.1
      · exact hdis.1 ⟨hcu, h.2⟩
      · exact hdis.2.1 ⟨hcu, h.2⟩
      · exact hdis.2.2.1 ⟨hcu, h.2⟩
    · intro hu hcu
      rcases hcases with h | h | h | h
      · exact hdis.1 ⟨h.2, hcu⟩
      · rw [hu] at h
        exact Bool.noConfusion h.1
      · exact hdis.2.2.2.1 ⟨hcu, h.2⟩
      · exact hdis.2.2.2.2.1 ⟨hcu, h.2⟩
    · intro hu hcu
      rcases hcases with h | h | h | h
      · exact hdis.2.1 ⟨h.2, hcu⟩
      · exact hdis.2.2.2.1 ⟨h.2, hcu⟩
      · rw [hu] at h
        exact Bool.noConfusion h.1
      · exact hdis.2.2.2.2.2 ⟨hcu, h.2⟩
    · intro hu hcu
      rcases hcases with h | h | h | h
      · exact hdis.2.2.1 ⟨h.2, hcu⟩
      · exact hdis.2.2.2.2.1 ⟨h.2, hcu⟩
      · exact hdis.2.2.2.2.2 ⟨h.2, hcu⟩
      · rw [hu] at h
        exact Bool.noConfusion h.1
  · intro h30
    have h := GeneratePasswordWithOptions_ok 30 true true true true src (by decide)
      (Or.inl rfl) (by simpa using h30)
    rw [GeneratePasswordDefault, GeneratePassword, h]
    refine ⟨rfl, ?_⟩
    simp only [List.length_map, List.length_take]
    have : (30 : Int).toNat = 30 := rfl
    omega

theorem C22_password_shape_witness :
    (1 : Int) ≤ 3 ∧ (false = true ∨ false = true ∨ true = true ∨ false = true) ∧
    (3 : Int).toNat ≤ (Rand.IntSource.mk [0, 3, 5] 0).values.length ∧
    (GeneratePasswordWithOptions 3 false false true false ⟨[0, 3, 5], 0⟩).1.2 = none ∧
    ((GeneratePasswordWithOptions 3 false false true false ⟨[0, 3, 5], 0⟩).1.1.length : Int) = 3 ∧
    (∀ c ∈ (GeneratePasswordWithOptions 3 false false true false ⟨[0, 3, 5], 0⟩).1.1,
      ((false = true ∧ c ∈ upperChars) ∨ (false = true ∧ c ∈ lowerChars) ∨
        (true = true ∧ c ∈ numberChars) ∨ (false = true ∧ c ∈ specialChars)) ∧
      (false = false → c ∉ upperChars) ∧ (false = false → c ∉ lowerChars) ∧
      (true = false → c ∉ numberChars) ∧ (false = false → c ∉ specialChars)) ∧
    (∀ c : Byte, ¬ (c ∈ upperChars ∧ c ∈ lowerChars) ∧ ¬ (c ∈ upperChars ∧ c ∈ numberChars) ∧
      ¬ (c ∈ upperChars ∧ c ∈ specialChars) ∧ ¬ (c ∈ lowerChars ∧ c ∈ numberChars) ∧
      ¬ (c ∈ lowerChars ∧ c ∈ specialChars) ∧ ¬ (c ∈ numberChars ∧ c ∈ specialChars)) ∧
    (30 ≤ (Rand.IntSource.mk [0, 3, 5] 0).values.length →
      (GeneratePasswordDefault ⟨[0, 3, 5], 0⟩).1.2 = none ∧
      (GeneratePasswordDefault ⟨[0, 3, 5], 0⟩).1.1.length = 30) :=
  ⟨by decide, by decide, by decide,
    C22_password_shape 3 false false true false ⟨[0, 3, 5], 0⟩ (by decide) (by decide)
      (by decide)⟩

/-- C23 at all-zero draws: when every drawn index is 0, `GeneratePassword(8)` returns without
error the password `AAAAAAAA` and `GeneratePasswordDefault()` thirty times `A`; neither holds
a lowercase letter, a digit or a special character, where the claim, like
`TestGeneratePassword` and `TestGeneratePasswordDefault`, asks for all four classes. -/
theorem C23_all_zero_draws :
    (GeneratePassword 8 ⟨List.replicate 8 0, 0⟩).1 = (ascii "AAAAAAAA", none) ∧
    ¬ (∃ c ∈ (GeneratePassword 8 ⟨List.replicate 8 0, 0⟩).1.1, c ∈ lowerChars) ∧
    ¬ (∃ c ∈ (GeneratePassword 8 ⟨List.replicate 8 0, 0⟩).1.1, c ∈ numberChars) ∧
    ¬ (∃ c ∈ (GeneratePassword 8 ⟨List.replicate 8 0, 0⟩).1.1, c ∈ specialChars) ∧
    (GeneratePasswordDefault ⟨List.replicate 30 0, 0⟩).1 = (List.replicate 30 65, none) ∧
    ¬ (∃ c ∈ (GeneratePasswordDefault ⟨List.replicate 30 0, 0⟩).1.1, c ∈ lowerChars) ∧
    ¬ (∃ c ∈ (GeneratePasswordDefault ⟨List.replicate 30 0, 0⟩).1.1, c ∈ numberChars) ∧
    ¬ (∃ c ∈ (GeneratePasswordDefault ⟨List.replicate 30 0, 0⟩).1.1, c ∈ specialChars) := by
  decide

/-- C24 (argument checks of `GeneratePasswordWithOptions`): with a random source that
delivers an index for every position, an error is returned exactly when the length is at
most 0 or all four flags are false, and it comes with the empty string; the length is
checked first, so a length of at most 0 gives the length error also when no set is selected,
and a length of at least 1 with no set selected gives the character-set error. -/
theorem C24_argument_checks (length : Int) (useUpper useLower useNumbers useSpecial : Bool)
    (src : Rand.IntSource) (hsrc : length.toNat ≤ src.values.length) :
    ((GeneratePasswordWithOptions length useUpper useLower useNumbers useSpecial src).1.2 ≠ none ↔
      length ≤ 0 ∨
        (useUpper = false ∧ useLower = false ∧ useNumbers = false ∧ useSpecial = false)) ∧
    ((GeneratePasswordWithOptions length useUpper useLower useNumbers useSpecial src).1.2 ≠ none →
      (GeneratePasswordWithOptions length useUpper useLower useNumbers useSpecial src).1.1 = []) ∧
    (length ≤ 0 →
      (GeneratePasswordWithOptions length useUpper useLower useNumbers useSpecial src).1 =
        ([], some .lengthNotPositive)) ∧
    (length ≤ 0 →
      (GeneratePasswordWithOptions length false false false false src).1 =
        ([], some .lengthNotPositive)) ∧
    (1 ≤ length →
      (GeneratePasswordWithOptions length false false false false src).1 =
        ([], some .noCharacterSet)) := by
  have hL : length ≤ 0 → ∀ u l n s : Bool,
      (GeneratePasswordWithOptions length u l n s src).1 = ([], some .lengthNotPositive) := by
    intro h u l n s
    simp [GeneratePasswordWithOptions, h]
  have hN : 1 ≤ length → (GeneratePasswordWithOptions length false false false false src).1 =
      ([], some .noCharacterSet) := by
    intro h
    have h0 : ¬ length ≤ 0 := by omega
    simp [GeneratePasswordWithOptions, h0]
  refine ⟨?_, ?_, fun h => hL h _ _ _ _, fun h => hL h _ _ _ _, hN⟩
  · by_cases h0 : length ≤ 0
    · rw [hL h0]
      simp [h0]
    · by_cases hflag : useUpper = true ∨ useLower = true ∨ useNumbers = true ∨ useSpecial = true
      · rw [GeneratePasswordWithOptions_ok length _ _ _ _ src (by omega) hflag hsrc]
        simp only [ne_eq, not_true_eq_false, false_iff, not_or, not_and]
        refine ⟨h0, ?_⟩
        intro hu hl hn hs
        rcases hflag with h | h | h | h
        · rw [hu] at h
          exact Bool.noConfusion h
        · rw [hl] at h
          exact Bool.noConfusion h
        · rw [hn] at h
          exact Bool.noConfusion h
        · rw [hs] at h
          exact Bool.noConfusion h
      · have hall : useUpper = false ∧ useLower = false ∧ useNumbers = false ∧
            useSpecial = false := by
          revert hflag
          cases useUpper <;> cases useLower <;> cases useNumbers <;> cases useSpecial <;> decide
        obtain ⟨hu, hl, hn, hs⟩ := hall
        subst hu hl hn hs
        rw [hN (by omega)]
        simp
  · intro herr
    by_cases h0 : length ≤ 0
    · rw [hL h0]
    · by_cases hflag : useUpper = true ∨ useLower = true ∨ useNumbers = true ∨ useSpecial = true
      · rw [GeneratePasswordWithOptions_ok length _ _ _ _ src (by omega) hflag hsrc] at herr
        exact absurd rfl herr
      · have hall : useUpper = false ∧ useLower = false ∧ useNumbers = false ∧
            useSpecial = false := by
          revert hflag
          cases useUpper <;> cases useLower <;> cases useNumbers <;> cases useSpecial <;> decide
        obtain ⟨hu, hl, hn, hs⟩ := hall
        subst hu hl hn hs
        rw [hN (by omega)]

theorem C24_argument_checks_witness :
    (20 : Int).toNat ≤ (Rand.IntSource.mk (List.replicate 20 7) 0).values.length ∧
    ((GeneratePasswordWithOptions 20 false false false false
        ⟨List.replicate 20 7, 0⟩).1.2 ≠ none ↔
      (20 : Int) ≤ 0 ∨ (false = false ∧ false = false ∧ false = false ∧ false = false)) ∧
    ((GeneratePasswordWithOptions 20 false false false false
        ⟨List.replicate 20 7, 0⟩).1.2 ≠ none →
      (GeneratePasswordWithOptions 20 false false false false ⟨List.replicate 20 7, 0⟩).1.1 = []) ∧
    ((20 : Int) ≤ 0 →
      (GeneratePasswordWithOptions 20 false false false false ⟨List.replicate 20 7, 0⟩).1 =
        ([], some .lengthNotPositive)) ∧
    ((20 : Int) ≤ 0 →
      (GeneratePasswordWithOptions 20 false false false false ⟨List.replicate 20 7, 0⟩).1 =
        ([], some .lengthNotPositive)) ∧
    ((1 : Int) ≤ 20 →
      (GeneratePasswordWithOptions 20 false false false false ⟨List.replicate 20 7, 0⟩).1 =
        ([], some .noCharacterSet)) :=
  ⟨by decide,
    C24_argument_checks 20 false false false false ⟨List.replicate 20 7, 0⟩ (by decide)⟩

end RandomPassword

namespace X1

/-- C25 (`Factorial`): with Go's `int` as 64-bit signed integer, `Factorial(n)` returns the
value 0 with an error when `n` is negative and never an error otherwise; and for every `n`
from 0 to 20 it returns, once the loop has had its `n + 1` tests, no error and exactly the
factorial of `n`; so 0 gives 1, 1 gives 1, 5 gives 120 and 10 gives 3628800. -/
theorem C25_factorial (n : Int) (fuel : Nat) :
    (n < 0 → Factorial fuel n = some (0, some .negative)) ∧
    (0 ≤ n → ∀ v e, Factorial fuel n ≠ some (v, some e)) ∧
    (0 ≤ n → n ≤ 20 → n.toNat + 1 ≤ fuel →
      Factorial fuel n = some (((n.toNat.factorial : Nat) : Int), none)) ∧
    Factorial 1 0 = some (1, none) ∧ Factorial 2 1 = some (1, none) ∧
    Factorial 6 5 = some (120, none) ∧ Factorial 11 10 = some (3628800, none) := by
  refine ⟨?_, ?_, ?_, by decide, by decide, by decide, by decide⟩
  · intro h
    simp [Factorial, h]
  · intro h v e
    unfold Factorial
    rw [if_neg (by omega)]
    split
    · simp
    · cases factorialLoop n fuel 1 1 <;> simp
  · intro h0 h20 hfuel
    rw [Factorial_eq_wrap n fuel h0 (by unfold MaxInt64; omega) hfuel]
    have hle := factorial_le_20 n.toNat (by omega)
    have hge : (0 : Int) ≤ (n.toNat.factorial : Nat) := Int.ofNat_nonneg _
    rw [wrap64_of_range _ (by omega) (by omega)]

theorem C25_factorial_witness :
    ((-5 : Int) < 0 → Factorial 3 (-5) = some (0, some .negative)) ∧
    ((0 : Int) ≤ 20 → ∀ v e, Factorial 21 20 ≠ some (v, some e)) ∧
    ((0 : Int) ≤ 20 → (20 : Int) ≤ 20 → (20 : Int).toNat + 1 ≤ 21 →
      Factorial 21 20 = some ((((20 : Int).toNat.factorial : Nat) : Int), none)) ∧
    Factorial 21 20 = some (2432902008176640000, none) :=
  ⟨(C25_factorial (-5) 3).1, (C25_factorial 20 21).2.1, (C25_factorial 20 21).2.2.1,
    by rw [(C25_factorial 20 21).2.2.1 (by decide) (by decide) (by decide)]; decide⟩

end X1

namespace A3

/-- C26 (password and salt boundary, a3): for a password `p1 ++ p2` with `p1` not empty, a
non-empty key and a salt `s` delivered by the random source, the record of `p1 ++ p2` is
`hmac_sha256$` base64url(`s`) `$` `D`, and `VerifyPassword` of the shorter password `p1` on
the record `hmac_sha256$` base64url(`p2 ++ s`) `$` `D`, with the same digest field `D`,
returns `(true, nil)`. -/
theorem C26_boundary_not_bound (p1 p2 secretKey s : List Byte) (saltLength : Int)
    (rd : Rand.Reader) (hp1 : p1 ≠ []) (hk : secretKey ≠ []) (hn : 16 ≤ saltLength)
    (hr : (rd.Read saltLength.toNat).1 = .ok s) :
    ∃ D, (HashPasswordWithSaltLength (p1 ++ p2) secretKey saltLength rd).1 =
        (ascii "hmac_sha256$" ++ Base64.URLEncoding.EncodeToString s ++ ascii "$" ++ D, none) ∧
      VerifyPassword p1
        (ascii "hmac_sha256$" ++ Base64.URLEncoding.EncodeToString (p2 ++ s) ++ ascii "$" ++ D)
        secretKey = (true, none) := by
  have hA : ascii "hmac_sha256$" = AlgorithmIdentifier ++ [Separator] := by decide
  have hS : ascii "$" = [Separator] := by decide
  have hp : p1 ++ p2 ≠ [] := by simp [hp1]
  refine ⟨Base64.URLEncoding.EncodeToString (HMAC.mac secretKey (p1 ++ p2 ++ s)), ?_, ?_⟩
  · rw [hA, hS]
    exact HashPasswordWithSaltLength_ok hp hk hn hr
  · rw [hA, hS, List.append_assoc p1 p2 s, VerifyPassword_hashed (p2 ++ s) hp1 hk, if_pos rfl]

theorem C26_boundary_not_bound_witness :
    ascii "pass" ≠ [] ∧ ascii "k" ≠ [] ∧ (16 : Int) ≤ 16 ∧
    ((Rand.Reader.mk (List.replicate 16 2) 0).Read (16 : Int).toNat).1 = .ok (List.replicate 16 2) ∧
    ∃ D, (HashPasswordWithSaltLength (ascii "pass" ++ ascii "word") (ascii "k") 16
          ⟨List.replicate 16 2, 0⟩).1 =
        (ascii "hmac_sha256$" ++ Base64.URLEncoding.EncodeToString (List.replicate 16 2) ++
          ascii "$" ++ D, none) ∧
      VerifyPassword (ascii "pass")
        (ascii "hmac_sha256$" ++
          Base64.URLEncoding.EncodeToString (ascii "word" ++ List.replicate 16 2) ++ ascii "$" ++ D)
        (ascii "k") = (true, none) :=
  ⟨by decide, by decide, by decide, rfl,
    C26_boundary_not_bound (ascii "pass") (ascii "word") (ascii "k") (List.replicate 16 2) 16
      ⟨List.replicate 16 2, 0⟩ (by decide) (by decide) (by decide) rfl⟩

/-- C27 (no salt minimum in `VerifyPassword`, a3): for a non-empty password and key, the
record `hmac_sha256$$` base64url(HMAC-SHA256(secretKey, password)), with an empty salt field,
is accepted by `VerifyPassword` with `(true, nil)` and is the result of no call of
`HashPasswordWithSaltLength`; and so is every record whose salt field `S` decodes to fewer
than 16 bytes and whose digest field encodes the digest of the password with those bytes. -/
theorem C27_short_salt_accepted (password secretKey S salt : List Byte) (hp : password ≠ [])
    (hk : secretKey ≠ []) (hS : (36 : Byte) ∉ S)
    (hdec : Base64.URLEncoding.DecodeString S = .ok salt) (hlen : salt.length < 16) :
    VerifyPassword password
      (ascii "hmac_sha256$$" ++ Base64.URLEncoding.EncodeToString (HMAC.mac secretKey password))
      secretKey = (true, none) ∧
    (∀ p k n rd, (HashPasswordWithSaltLength p k n rd).1.1 ≠
      ascii "hmac_sha256$$" ++ Base64.URLEncoding.EncodeToString (HMAC.mac secretKey password)) ∧
    VerifyPassword password
      (ascii "hmac_sha256$" ++ S ++ ascii "$" ++
        Base64.URLEncoding.EncodeToString (HMAC.mac secretKey (password ++ salt)))
      secretKey = (true, none) ∧
    (∀ p k n rd, (HashPasswordWithSaltLength p k n rd).1.1 ≠
      ascii "hmac_sha256$" ++ S ++ ascii "$" ++
        Base64.URLEncoding.EncodeToString (HMAC.mac secretKey (password ++ salt))) := by
  have hA : ascii "hmac_sha256$" = AlgorithmIdentifier ++ [Separator] := by decide
  have hsep : ascii "$" = [Separator] := by decide
  have hE : ∀ D : List Byte, ascii "hmac_sha256$$" ++ D =
      AlgorithmIdentifier ++ [Separator] ++ [] ++ [Separator] ++ D := by
    intro D
    have : ascii "hmac_sha256$$" = AlgorithmIdentifier ++ [Separator] ++ [] ++ [Separator] := by
      decide
    rw [this]
  have hnil : Base64.URLEncoding.DecodeString [] = .ok [] := rfl
  have hdec2 := Base64.DecodeString_EncodeToString Base64.URLEncoding_valid
  refine ⟨?_, ?_, ?_, ?_⟩
  · rw [hE, VerifyPassword_record hp hk (by simp) (Base64.dollar_not_mem_URLEncoding _), hnil,
      hdec2]
    simp
  · intro p k n rd
    rw [hE]
    exact HashPasswordWithSaltLength_ne_short (by simp) (Base64.dollar_not_mem_URLEncoding _)
      hnil (by simp) p k n rd
  · rw [hA, hsep, VerifyPassword_record hp hk hS (Base64.dollar_not_mem_URLEncoding _), hdec,
      hdec2]
    simp
  · intro p k n rd
    rw [hA, hsep]
    exact HashPasswordWithSaltLength_ne_short hS (Base64.dollar_not_mem_URLEncoding _) hdec hlen
      p k n rd

theorem C27_short_salt_accepted_witness :
    ascii "pw" ≠ [] ∧ ascii "k" ≠ [] ∧ (36 : Byte) ∉ ascii "AAEC" ∧
    Base64.URLEncoding.DecodeString (ascii "AAEC") = .ok [0, 1, 2] ∧
    ([0, 1, 2] : List Byte).length < 16 ∧
    VerifyPassword (ascii "pw")
      (ascii "hmac_sha256$$" ++
        Base64.URLEncoding.EncodeToString (HMAC.mac (ascii "k") (ascii "pw")))
      (ascii "k") = (true, none) ∧
    (∀ p k n rd, (HashPasswordWithSaltLength p k n rd).1.1 ≠
      ascii "hmac_sha256$$" ++
        Base64.URLEncoding.EncodeToString (HMAC.mac (ascii "k") (ascii "pw"))) ∧
    VerifyPassword (ascii "pw")
      (ascii "hmac_sha256$" ++ ascii "AAEC" ++ ascii "$" ++
        Base64.URLEncoding.EncodeToString (HMAC.mac (ascii "k") (ascii "pw" ++ [0, 1, 2])))
      (ascii "k") = (true, none) ∧
    (∀ p k n rd, (HashPasswordWithSaltLength p k n rd).1.1 ≠
      ascii "hmac_sha256$" ++ ascii "AAEC" ++ ascii "$" ++
        Base64.URLEncoding.EncodeToString (HMAC.mac (ascii "k") (ascii "pw" ++ [0, 1, 2]))) :=
  ⟨by decide, by decide, by decide, rfl, by decide,
    C27_short_salt_accepted (ascii "pw") (ascii "k") (ascii "AAEC") [0, 1, 2]
      (by decide) (by decide) (by decide) rfl (by decide)⟩

end A3

namespace A2

/-- C28 (a2 and a3 reject each other's records): for a non-empty password and key, a3's
`VerifyPassword` on the record a2's `HashPassword` wrote with a 32-byte salt returns `false`
with a salt-decode error, the salt field being 43 characters of unpadded standard base64;
and a2's `VerifyPassword`, for any candidate password and key, returns `false` on the record
a3's `HashPasswordWithSaltLength` wrote with a salt length of at least 16, whose digest field
has 44 characters while the re-encoded digest has 43. -/
theorem C28_cross_rejection (password secretKey salt2 salt3 candidate key2 : List Byte)
    (saltLength : Int) (rd2 rd3 : Rand.Reader) (hp : password ≠ []) (hk : secretKey ≠ [])
    (hr2 : (rd2.Read 32).1 = .ok salt2) (hn : 16 ≤ saltLength)
    (hr3 : (rd3.Read saltLength.toNat).1 = .ok salt3) :
    (∃ off, A3.VerifyPassword password (HashPassword password secretKey rd2).1.1 secretKey =
      (false, some (.failedToDecodeSalt (.corruptInput off)))) ∧
    (Base64.RawStdEncoding.EncodeToString salt2).length = 43 ∧
    (VerifyPassword candidate
      (A3.HashPasswordWithSaltLength password secretKey saltLength rd3).1.1 key2).1 = false ∧
    (Base64.URLEncoding.EncodeToString (HMAC.mac secretKey (password ++ salt3))).length = 44 ∧
    ∀ salt, (Base64.RawStdEncoding.EncodeToString (computeHMAC candidate key2 salt)).length = 43 := by
  have hl2 : salt2.length = 32 := A3.Read_length hr2
  have hlen43 : ∀ key msg : List Byte,
      (Base64.RawStdEncoding.EncodeToString (HMAC.mac key msg)).length = 43 := by
    intro key msg
    rw [Base64.length_EncodeToString, HMAC.length_mac]
    rfl
  have hlen44 : (Base64.URLEncoding.EncodeToString
      (HMAC.mac secretKey (password ++ salt3))).length = 44 := by
    rw [Base64.length_EncodeToString, HMAC.length_mac]
    rfl
  refine ⟨?_, ?_, ?_, hlen44, ?_⟩
  · obtain ⟨off, hoff⟩ := Base64.URLEncoding_rejects_RawStdEncoding salt2 (by rw [hl2]; decide)
    refine ⟨off, ?_⟩
    rw [a2_HashPassword_ok hp hk hr2]
    have hrec := @A3.VerifyPassword_record password secretKey
      (Base64.RawStdEncoding.EncodeToString salt2)
      (Base64.RawStdEncoding.EncodeToString (HMAC.mac secretKey (password ++ salt2))) hp hk
      (Base64.dollar_not_mem_RawStdEncoding _) (Base64.dollar_not_mem_RawStdEncoding _)
    rw [hoff] at hrec
    exact hrec
  · rw [Base64.length_EncodeToString, hl2]
    rfl
  · rw [A3.HashPasswordWithSaltLength_ok hp hk hn hr3]
    by_cases hc : candidate = []
    · simp [VerifyPassword, hc]
    · by_cases hk2 : key2 = []
      · unfold VerifyPassword
        rw [if_neg hc]
        split
        · rfl
        · simp [hk2]
      · have hrec := @a2_VerifyPassword_record candidate key2
          (Base64.URLEncoding.EncodeToString salt3)
          (Base64.URLEncoding.EncodeToString (HMAC.mac secretKey (password ++ salt3))) hc hk2
          (Base64.dollar_not_mem_URLEncoding _) (Base64.dollar_not_mem_URLEncoding _)
        have hrec2 : VerifyPassword candidate
            (A3.AlgorithmIdentifier ++ [A3.Separator] ++ Base64.URLEncoding.EncodeToString salt3 ++
              [A3.Separator] ++
              Base64.URLEncoding.EncodeToString (HMAC.mac secretKey (password ++ salt3))) key2 = _ :=
          hrec
        simp only []
        rw [hrec2]
        split
        · rfl
        · rename_i s hs
          have hne : Base64.RawStdEncoding.EncodeToString (HMAC.mac key2 (candidate ++ s)) ≠
              Base64.URLEncoding.EncodeToString (HMAC.mac secretKey (password ++ salt3)) := by
            intro h
            have := congrArg List.length h
            rw [hlen43, hlen44] at this
            omega
          simp [hne]
  · intro salt
    rw [a2_computeHMAC_eq]
    exact hlen43 _ _

theorem C28_cross_rejection_witness :
    ascii "pw" ≠ [] ∧ ascii "k" ≠ [] ∧
    ((Rand.Reader.mk (List.replicate 32 4) 0).Read 32).1 = .ok (List.replicate 32 4) ∧
    (16 : Int) ≤ 18 ∧
    ((Rand.Reader.mk (List.replicate 18 4) 0).Read (18 : Int).toNat).1 = .ok (List.replicate 18 4) ∧
    (∃ off, A3.VerifyPassword (ascii "pw")
      (HashPassword (ascii "pw") (ascii "k") ⟨List.replicate 32 4, 0⟩).1.1 (ascii "k") =
      (false, some (.failedToDecodeSalt (.corruptInput off)))) ∧
    (Base64.RawStdEncoding.EncodeToString (List.replicate 32 4)).length = 43 ∧
    (VerifyPassword (ascii "pw")
      (A3.HashPasswordWithSaltLength (ascii "pw") (ascii "k") 18 ⟨List.replicate 18 4, 0⟩).1.1
      (ascii "k")).1 = false ∧
    (Base64.URLEncoding.EncodeToString
      (HMAC.mac (ascii "k") (ascii "pw" ++ List.replicate 18 4))).length = 44 ∧
    ∀ salt, (Base64.RawStdEncoding.EncodeToString
      (computeHMAC (ascii "pw") (ascii "k") salt)).length = 43 :=
  ⟨by decide, by decide, rfl, by decide, rfl,
    C28_cross_rejection (ascii "pw") (ascii "k") (List.replicate 32 4) (List.replicate 18 4)
      (ascii "pw") (ascii "k") 18 ⟨List.replicate 32 4, 0⟩ ⟨List.replicate 18 4, 0⟩
      (by decide) (by decide) rfl (by decide) rfl⟩

end A2

namespace X1

/-- C29 at the largest `int`: `Factorial(9223372036854775807)` does not return, whatever
the fuel, because the loop counter wraps around to the smallest `int` and passes the test
`i <= n` again. -/
theorem C29_factorial_max_never_returns (fuel : Nat) :
    Factorial fuel 9223372036854775807 = none := by
  unfold Factorial
  rw [if_neg (by decide), if_neg (by decide), factorialLoop_max_none fuel 1 1 (by decide)]
  rfl

end X1

end OpenTask
